import Mathlib

/-!
# go-keen: a verification development of `client.go`

The client builds HTTP requests for the Keen analytics API, sends them through
an HTTP transport and turns the answer into a result or an error.

The embedding is shallow.  Every function of `client.go` is a Lean function of
the same name.  The standard library the client calls is modelled as follows.

* `net/http`: a request is the record of what `http.NewRequest` was given and
  what the client then set on it.  The validation done by `http.NewRequest`
  and the network exchange done by `http.Client.Do` are fields of `Env`.
  Every operation returns, next to its result, the list of requests it handed
  to the transport, in order.
* `encoding/json`, encoding: an event is an arbitrary Go value; it is
  represented by what `json.Marshal` yields on it.  The encoding of the batch
  type `map[string][]interface{}` is modelled structurally.
* `encoding/json`, decoding: a JSON reader and the decoding of a JSON value
  into `KeenResult`, directed by the struct tags of `client.go`.
* `text/template`: literal text and field actions, which is what
  `queryTemplate` uses.
* `time`: an instant is a count of seconds and nanoseconds from the Unix
  epoch together with the zone offset it is displayed in.

Byte strings are modelled as `String`; `len` is the UTF-8 length in bytes.
-/

namespace Keen

/-! ## Constants -/

/-- Constant `baseUrl`, client.go line 16. -/
def baseUrl : String := "https://api.keen.io/3.0/projects/"

/-- Constant `queryTemplate`, client.go line 17. -/
def queryTemplate : String :=
  "/queries/{{.Type}}?event_collection={{.EventCollection}}&target_property={{.TargetProperty}}&group_by={{.GroupBy}}"

/-! ## Errors -/

/-- Errors of `json.Unmarshal`. -/
inductive DecodeError where
  /-- `SyntaxError` with message `unexpected end of JSON input`. -/
  | unexpectedEnd
  /-- Any other `SyntaxError`; the text of its message is not modelled. -/
  | invalidSyntax
  /-- `UnmarshalTypeError`: JSON value of kind `value` met at Go type `goType`. -/
  | typeMismatch (value : String) (goType : String)
  deriving DecidableEq, Repr

/-- Go `error` values the client can return, by origin. -/
inductive Error where
  /-- Returned by `json.Marshal`. -/
  | marshal (msg : String)
  /-- Returned by `http.NewRequest`. -/
  | newRequest (msg : String)
  /-- Returned by `http.Client.Do`. -/
  | transport (msg : String)
  /-- Returned by `ioutil.ReadAll` on the response body. -/
  | readBody (msg : String)
  /-- Built by `errors.New(string(respBody))` in `doRequest`. -/
  | api (body : String)
  /-- Returned by `json.Unmarshal`. -/
  | decode (e : DecodeError)
  deriving DecidableEq, Repr

/-- Text of `err.Error()`, where the model carries it. -/
def Error.message : Error → Option String
  | .marshal msg => some msg
  | .newRequest msg => some msg
  | .transport msg => some msg
  | .readBody msg => some msg
  | .api body => some body
  | .decode .unexpectedEnd => some "unexpected end of JSON input"
  | .decode _ => none

/-! ## Requests, responses and the environment -/

/-- The part of `http.Request` the client determines. `url` is the string
handed to `http.NewRequest`. -/
structure Request where
  method : String
  url : String
  body : Option String
  contentLength : Nat
  header : List (String × String)
  deriving DecidableEq, Repr

/-- Method `Header.Add`: appends a value under the key. -/
def Request.addHeader (r : Request) (key value : String) : Request :=
  { r with header := r.header ++ [(key, value)] }

/-- Method `Header.Values`: all values stored under the key, in order. -/
def Request.headerValues (r : Request) (key : String) : List String :=
  (r.header.filter (fun kv => kv.1 == key)).map Prod.snd

/-- What `doRequest` reads from an `http.Response`: the status code and the
outcome of `ioutil.ReadAll(resp.Body)`. -/
structure Response where
  StatusCode : Int
  Body : Except Error String

/-- The world outside `client.go`. `F` stands for Go `float64`. -/
structure Env (F : Type) where
  /-- Validation in `http.NewRequest method url`: `some msg` when it fails
  (invalid method, URL that does not parse). -/
  newRequestError : String → String → Option String
  /-- Method `http.Client.Do`: the exchange with the remote API. -/
  roundTrip : Request → Except Error Response
  /-- Rendering of a Go string as a JSON string literal by `encoding/json`. -/
  quote : String → String
  /-- Function `strconv.ParseFloat(lit, 64)` on a JSON number literal; `none`
  when the value is out of range. -/
  parseFloat : String → Option F
  /-- The zero value of `float64`. -/
  zero : F

/-- Result of an operation together with the requests it passed to the
transport. -/
structure Outcome (α : Type) where
  sent : List Request
  result : Except Error α

/-! ## Data model of `client.go` -/

/-- Struct `Client` without the transport handle, which lives in `Env`. -/
structure Client where
  ApiKey : String
  WriteKey : String
  ProjectId : String
  deriving DecidableEq, Repr

/-- Struct `Filter`. -/
structure Filter where
  Percentile : String
  Timeframe : String
  deriving DecidableEq, Repr

/-- Struct `Command`. Field `Type` is written `Type_`. -/
structure Command where
  TargetProperty : String
  GroupBy : String
  Type_ : String
  EventCollection : String
  Filter : Filter
  deriving DecidableEq, Repr

set_option linter.dupNamespace false

/-- Struct `Result`, tagged `json:"result"` and `json:"userId"`. -/
structure Result (F : Type) where
  Result : F
  UserID : String

/-- Struct `KeenResult`, tagged `json:"result"`. -/
structure KeenResult (F : Type) where
  Result : List (Result F)

/-- Function `NewClient`. -/
def NewClient (apiKey writeKey projectId : String) : Client :=
  { ApiKey := apiKey, WriteKey := writeKey, ProjectId := projectId }

/-! ## Encoding of payloads -/

/-- A non-nil Go value passed as an event. The client only hands it to
`json.Marshal`, so it is represented by the outcome of that call: the JSON
text, or the message of the error. -/
structure Event where
  marshalJSON : Except String String

/-- Go `[]interface{}`: `none` is the nil slice, and an element `none` is the
nil interface value. -/
abbrev EventSlice := Option (List (Option Event))

/-- Go `map[string][]interface{}`: `none` is the nil map; otherwise the
entries, whose keys are pairwise distinct. -/
abbrev EventBatch := Option (List (String × EventSlice))

/-- Encoding of one `interface{}` element: nil encodes as `null`. -/
def encodeElem : Option Event → Except Error String
  | none => .ok "null"
  | some e =>
    match e.marshalJSON with
    | .ok s => .ok s
    | .error msg => .error (.marshal msg)

/-- Encodings of the elements of a slice, left to right, stopping at the
first error. -/
def encodeElems : List (Option Event) → Except Error (List String)
  | [] => .ok []
  | e :: es =>
    match encodeElem e with
    | .error err => .error err
    | .ok s =>
      match encodeElems es with
      | .error err => .error err
      | .ok ss => .ok (s :: ss)

/-- Text of a JSON array with the given element texts. -/
def renderArray (elems : List String) : String :=
  "[" ++ ",".intercalate elems ++ "]"

/-- Text of a JSON object with the given `(key literal, value text)` members. -/
def renderObject (members : List (String × String)) : String :=
  "\x7b" ++ ",".intercalate (members.map (fun m => m.1 ++ ":" ++ m.2)) ++ "\x7d"

/-- Encoding of a `[]interface{}`: the nil slice encodes as `null`. -/
def encodeSlice : EventSlice → Except Error String
  | none => .ok "null"
  | some es =>
    match encodeElems es with
    | .error err => .error err
    | .ok ss => .ok (renderArray ss)

/-- Encodings of the members of a map, in the given order, stopping at the
first error. -/
def encodeMembers {F : Type} (env : Env F) :
    List (String × EventSlice) → Except Error (List (String × String))
  | [] => .ok []
  | (k, v) :: rest =>
    match encodeSlice v with
    | .error err => .error err
    | .ok s =>
      match encodeMembers env rest with
      | .error err => .error err
      | .ok ms => .ok ((env.quote k, s) :: ms)

/-- Encoding of a `map[string][]interface{}`: the nil map encodes as `null`,
any other map as an object whose members are sorted by key. -/
def encodeBatch {F : Type} (env : Env F) : EventBatch → Except Error String
  | none => .ok "null"
  | some entries =>
    match encodeMembers env (entries.insertionSort (fun a b => a.1 ≤ b.1)) with
    | .error err => .error err
    | .ok ms => .ok (renderObject ms)

/-- A non-nil `interface{}` value passed to `doRequest` as body: the event of
`AddEvent` or the map of `AddEvents`. -/
inductive Payload where
  | event (e : Event)
  | batch (b : EventBatch)

/-- Function `json.Marshal` on a payload. -/
def Marshal {F : Type} (env : Env F) : Payload → Except Error String
  | .event e => encodeElem (some e)
  | .batch b => encodeBatch env b

/-! ## Request construction and execution -/

/-- Function `http.NewRequest`: fails when validation fails, otherwise a
request with the given method, URL and body and no header. The content length
is that of the body reader. -/
def NewRequest {F : Type} (env : Env F) (method url : String) (body : Option String) :
    Except Error Request :=
  match env.newRequestError method url with
  | some msg => .error (.newRequest msg)
  | none =>
    .ok { method := if method = "" then "GET" else method
          url := url
          body := body
          contentLength := match body with
            | some b => b.utf8ByteSize
            | none => 0
          header := [] }

/-- Method `Client.makeRequest`, client.go lines 133-185. `payload = none` is
the nil interface. -/
def makeRequest {F : Type} (env : Env F) (c : Client) (method path : String)
    (payload : Option Payload) : Except Error Request :=
  let url := baseUrl ++ c.ProjectId ++ path
  match payload with
  | some p =>
    match Marshal env p with
    | .error err => .error err
    | .ok body =>
      match NewRequest env method url (some body) with
      | .error err => .error err
      | .ok req =>
        -- `body != nil` holds: a successful Marshal returns a non-nil slice
        let req := req.addHeader "Content-Type" "application/json"
        let req := { req with contentLength := body.utf8ByteSize }
        let req := req.addHeader "Authorization" c.WriteKey
        .ok req
  | none =>
    if method = "GET" then
      let url := url ++ "&api_key=" ++ c.ApiKey
      match NewRequest env method url none with
      | .error err => .error err
      | .ok req => .ok req
    else
      match NewRequest env method url none with
      | .error err => .error err
      | .ok _req =>
        -- the header is added to `_req`; line 180 returns a new request
        NewRequest env method path none

/-- The status test of `doRequest`, line 127: `resp.StatusCode/200 != 1` with
Go's truncating integer division. -/
def statusIsError (status : Int) : Bool :=
  Int.tdiv status 200 != 1

/-- What `doRequest` makes of a response, lines 122-130. -/
def readResponse (resp : Response) : Except Error String :=
  match resp.Body with
  | .error err => .error err
  | .ok respBody =>
    if statusIsError resp.StatusCode then .error (.api respBody)
    else .ok respBody

/-- Method `Client.doRequest`, client.go lines 111-131. -/
def doRequest {F : Type} (env : Env F) (c : Client) (method path : String)
    (body : Option Payload) : Outcome String :=
  match makeRequest env c method path body with
  | .error err => { sent := [], result := .error err }
  | .ok req =>
    match env.roundTrip req with
    | .error err => { sent := [req], result := .error err }
    | .ok resp => { sent := [req], result := readResponse resp }

/-- Method `Client.AddEvent`, client.go lines 73-81. `event = none` is the
nil interface. -/
def AddEvent {F : Type} (env : Env F) (c : Client) (collection : String)
    (event : Option Event) : Outcome Unit :=
  let r := doRequest env c "POST" ("/events/" ++ collection) (event.map Payload.event)
  match r.result with
  | .error err => { sent := r.sent, result := .error err }
  | .ok _ => { sent := r.sent, result := .ok () }

/-- Method `Client.AddEvents`, client.go lines 83-90. -/
def AddEvents {F : Type} (env : Env F) (c : Client) (events : EventBatch) : Outcome Unit :=
  let r := doRequest env c "POST" "/events" (some (Payload.batch events))
  match r.result with
  | .error err => { sent := r.sent, result := .error err }
  | .ok _ => { sent := r.sent, result := .ok () }

/-! ## The query template (`text/template`) -/

/-- Node of a parsed template: literal text, or the action that prints a
field of the data value. -/
inductive TemplateNode where
  | text (s : String)
  | field (name : String)
  deriving DecidableEq, Repr

/-- Text node for the characters read so far (held in reverse); no node when
there are none. -/
def textNode (acc : List Char) : List TemplateNode :=
  if acc.isEmpty then [] else [.text (String.mk acc.reverse)]

/-- Node for the inside of an action (held in reverse): only a dot followed
by a field name is supported. -/
def fieldNode (acc : List Char) : Option TemplateNode :=
  match acc.reverse with
  | '.' :: name =>
    if !name.isEmpty && name.all (fun c => c.isAlphanum || c == '_') then
      some (.field (String.mk name))
    else none
  | _ => none

/-- Template scanner. The flag tells whether the position is inside an
action; `acc` holds the characters of the current node in reverse. -/
def parseTemplateAux : Bool → List Char → List Char → Option (List TemplateNode)
  | false, acc, [] => some (textNode acc)
  | true, _, [] => none
  | false, acc, '{' :: '{' :: rest =>
    match parseTemplateAux true [] rest with
    | some nodes => some (textNode acc ++ nodes)
    | none => none
  | false, acc, c :: rest => parseTemplateAux false (c :: acc) rest
  | true, acc, '}' :: '}' :: rest =>
    match fieldNode acc, parseTemplateAux false [] rest with
    | some node, some nodes => some (node :: nodes)
    | _, _ => none
  | true, acc, c :: rest => parseTemplateAux true (c :: acc) rest

/-- Method `Template.Parse` on the supported fragment. -/
def parseTemplate (src : String) : Option (List TemplateNode) :=
  parseTemplateAux false [] src.data

/-- Printed form of an exported field of `Command`, as `fmt.Fprint` gives it;
`none` for a name that is not a field. -/
def Command.field (cmd : Command) (name : String) : Option String :=
  if name = "TargetProperty" then some cmd.TargetProperty
  else if name = "GroupBy" then some cmd.GroupBy
  else if name = "Type" then some cmd.Type_
  else if name = "EventCollection" then some cmd.EventCollection
  else if name = "Filter" then
    some ("\x7b" ++ cmd.Filter.Percentile ++ " " ++ cmd.Filter.Timeframe ++ "\x7d")
  else none

/-- Method `Template.Execute` writing into a buffer that holds `out`: nodes
are written in order and execution stops at the first missing field. -/
def executeTemplate (cmd : Command) : List TemplateNode → String → String
  | [], out => out
  | .text s :: rest, out => executeTemplate cmd rest (out ++ s)
  | .field name :: rest, out =>
    match cmd.field name with
    | some v => executeTemplate cmd rest (out ++ v)
    | none => out

/-- Lines 94-97 of `GetAnalysis`: the query template executed on the command.
Errors of `Parse` and `Execute` are ignored there. -/
def queryPath (cmd : Command) : String :=
  match parseTemplate queryTemplate with
  | some nodes => executeTemplate cmd nodes ""
  | none => ""

/-! ## JSON reader (`encoding/json`, syntax) -/

/-- A JSON value. A number keeps its literal text. -/
inductive JSON where
  | null
  | bool (b : Bool)
  | number (lit : String)
  | string (s : String)
  | array (elems : List JSON)
  | object (members : List (String × JSON))
  deriving Repr

/-- JSON white space. -/
def isSpace (c : Char) : Bool :=
  c == ' ' || c == '\t' || c == '\r' || c == '\n'

/-- Drops leading white space. -/
def skipWS : List Char → List Char
  | [] => []
  | c :: cs => if isSpace c then skipWS cs else c :: cs

/-- Value of a hexadecimal digit. -/
def hexVal (c : Char) : Option Nat :=
  if '0'.toNat ≤ c.toNat ∧ c.toNat ≤ '9'.toNat then some (c.toNat - '0'.toNat)
  else if 'a'.toNat ≤ c.toNat ∧ c.toNat ≤ 'f'.toNat then some (c.toNat - 'a'.toNat + 10)
  else if 'A'.toNat ≤ c.toNat ∧ c.toNat ≤ 'F'.toNat then some (c.toNat - 'A'.toNat + 10)
  else none

/-- Value of four hexadecimal digits. -/
def hex4 (a b c d : Char) : Option Nat :=
  match hexVal a, hexVal b, hexVal c, hexVal d with
  | some x, some y, some z, some w => some (((x * 16 + y) * 16 + z) * 16 + w)
  | _, _, _, _ => none

/-- Character named by a one-letter escape. -/
def simpleEscape (e : Char) : Option Char :=
  if e = '"' then some '"'
  else if e = '\\' then some '\\'
  else if e = '/' then some '/'
  else if e = 'b' then some (Char.ofNat 8)
  else if e = 'f' then some (Char.ofNat 12)
  else if e = 'n' then some '\n'
  else if e = 'r' then some '\r'
  else if e = 't' then some '\t'
  else none

/-- Piece of a string literal: a character, or the UTF-16 code unit of a
`\u` escape. -/
inductive StrItem where
  | char (c : Char)
  | unit (n : Nat)
  deriving DecidableEq, Repr

/-- Puts an item in front of the items read from the rest. -/
def consItem (i : StrItem) :
    Except DecodeError (List StrItem × List Char) → Except DecodeError (List StrItem × List Char)
  | .ok (is, rest) => .ok (i :: is, rest)
  | .error e => .error e

/-- Reads a string literal from just after its opening quote up to and
including its closing quote. -/
def readItems : List Char → Except DecodeError (List StrItem × List Char)
  | [] => .error .unexpectedEnd
  | c :: rest =>
    if c = '"' then .ok ([], rest)
    else if c = '\\' then
      match rest with
      | [] => .error .unexpectedEnd
      | e :: rest1 =>
        if e = 'u' then
          match rest1 with
          | a :: b :: c4 :: d :: rest2 =>
            match hex4 a b c4 d with
            | some n => consItem (.unit n) (readItems rest2)
            | none => .error .invalidSyntax
          | _ =>
            if rest1.all (fun h => (hexVal h).isSome) then .error .unexpectedEnd
            else .error .invalidSyntax
        else
          match simpleEscape e with
          | some ch => consItem (.char ch) (readItems rest1)
          | none => .error .invalidSyntax
    else if c.toNat < 32 then .error .invalidSyntax
    else consItem (.char c) (readItems rest)

/-- Character for a code unit standing alone: the replacement character for
a surrogate. -/
def unitChar (n : Nat) : Char :=
  if 0xD800 ≤ n ∧ n < 0xE000 then Char.ofNat 0xFFFD else Char.ofNat n

/-- The characters a string literal denotes: a high surrogate directly
followed by a low surrogate forms one character. -/
def decodeItems : List StrItem → List Char
  | [] => []
  | .char c :: rest => c :: decodeItems rest
  | [.unit n] => [unitChar n]
  | .unit n :: .char c :: rest => unitChar n :: c :: decodeItems rest
  | .unit hi :: .unit lo :: rest =>
    if 0xD800 ≤ hi ∧ hi < 0xDC00 ∧ 0xDC00 ≤ lo ∧ lo < 0xE000 then
      Char.ofNat ((hi - 0xD800) * 1024 + (lo - 0xDC00) + 0x10000) :: decodeItems rest
    else
      unitChar hi :: decodeItems (.unit lo :: rest)

/-- Reads a string literal from just after its opening quote: the string it
denotes and the input after its closing quote. -/
def readString (cs : List Char) : Except DecodeError (String × List Char) :=
  match readItems cs with
  | .ok (items, rest) => .ok (String.mk (decodeItems items), rest)
  | .error e => .error e

/-- Decimal digit. -/
def isDigit (c : Char) : Bool :=
  '0'.toNat ≤ c.toNat && c.toNat ≤ '9'.toNat

/-- Exponent part of a number, after the text `acc` read so far. -/
def scanExp (acc : List Char) : List Char → Except DecodeError (List Char × List Char)
  | [] => .ok (acc, [])
  | c :: rest =>
    if c = 'e' ∨ c = 'E' then
      let sign := match rest with
        | s :: _ => if s = '+' ∨ s = '-' then [s] else []
        | [] => []
      let rest1 := rest.drop sign.length
      let ds := rest1.takeWhile isDigit
      let rest2 := rest1.dropWhile isDigit
      if ds.isEmpty then
        (if rest2.isEmpty then .error .unexpectedEnd else .error .invalidSyntax)
      else .ok (acc ++ c :: sign ++ ds, rest2)
    else .ok (acc, c :: rest)

/-- Fraction part of a number, after the text `acc` read so far. -/
def scanFrac (acc : List Char) : List Char → Except DecodeError (List Char × List Char)
  | [] => .ok (acc, [])
  | c :: rest =>
    if c = '.' then
      let ds := rest.takeWhile isDigit
      let rest1 := rest.dropWhile isDigit
      if ds.isEmpty then
        (if rest1.isEmpty then .error .unexpectedEnd else .error .invalidSyntax)
      else scanExp (acc ++ c :: ds) rest1
    else scanExp acc (c :: rest)

/-- Integer part of a number, after an optional sign `acc`. -/
def scanInt (acc : List Char) : List Char → Except DecodeError (List Char × List Char)
  | [] => .error .unexpectedEnd
  | c :: rest =>
    if c = '0' then scanFrac (acc ++ [c]) rest
    else if isDigit c then
      scanFrac (acc ++ c :: rest.takeWhile isDigit) (rest.dropWhile isDigit)
    else .error .invalidSyntax

/-- Reads a number literal: its text and the input after it. -/
def scanNumber : List Char → Except DecodeError (List Char × List Char)
  | [] => .error .unexpectedEnd
  | c :: rest => if c = '-' then scanInt [c] rest else scanInt [] (c :: rest)

/-- Reads the given characters, the rest of a literal name. -/
def expectChars : List Char → List Char → Except DecodeError (List Char)
  | [], cs => .ok cs
  | _ :: _, [] => .error .unexpectedEnd
  | e :: es, c :: cs => if c = e then expectChars es cs else .error .invalidSyntax

/-- Nesting depth beyond which the reader refuses the input. -/
def maxNestingDepth : Nat := 10000

mutual
/-- Reads one JSON value, white space before it included. `fuel` bounds the
recursion and `depth` counts the enclosing arrays and objects. -/
def parseValue : Nat → Nat → List Char → Except DecodeError (JSON × List Char)
  | 0, _, _ => .error .invalidSyntax
  | fuel + 1, depth, cs =>
    match skipWS cs with
    | [] => .error .unexpectedEnd
    | c :: rest =>
      if c = '{' then
        if depth ≥ maxNestingDepth then .error .invalidSyntax
        else
          match skipWS rest with
          | [] => .error .unexpectedEnd
          | c1 :: rest1 =>
            if c1 = '}' then .ok (.object [], rest1)
            else
              match parseMembers fuel (depth + 1) (c1 :: rest1) with
              | .ok (ms, rest2) => .ok (.object ms, rest2)
              | .error e => .error e
      else if c = '[' then
        if depth ≥ maxNestingDepth then .error .invalidSyntax
        else
          match skipWS rest with
          | [] => .error .unexpectedEnd
          | c1 :: rest1 =>
            if c1 = ']' then .ok (.array [], rest1)
            else
              match parseElems fuel (depth + 1) (c1 :: rest1) with
              | .ok (vs, rest2) => .ok (.array vs, rest2)
              | .error e => .error e
      else if c = '"' then
        match readString rest with
        | .ok (s, rest1) => .ok (.string s, rest1)
        | .error e => .error e
      else if c = 't' then
        match expectChars ['r', 'u', 'e'] rest with
        | .ok rest1 => .ok (.bool true, rest1)
        | .error e => .error e
      else if c = 'f' then
        match expectChars ['a', 'l', 's', 'e'] rest with
        | .ok rest1 => .ok (.bool false, rest1)
        | .error e => .error e
      else if c = 'n' then
        match expectChars ['u', 'l', 'l'] rest with
        | .ok rest1 => .ok (.null, rest1)
        | .error e => .error e
      else
        match scanNumber (c :: rest) with
        | .ok (lit, rest1) => .ok (.number (String.mk lit), rest1)
        | .error e => .error e
/-- Reads the elements of an array up to and including the closing bracket;
the input starts at the first element. -/
def parseElems : Nat → Nat → List Char → Except DecodeError (List JSON × List Char)
  | 0, _, _ => .error .invalidSyntax
  | fuel + 1, depth, cs =>
    match parseValue fuel depth cs with
    | .error e => .error e
    | .ok (v, rest) =>
      match skipWS rest with
      | [] => .error .unexpectedEnd
      | c :: rest1 =>
        if c = ',' then
          match parseElems fuel depth rest1 with
          | .ok (vs, rest2) => .ok (v :: vs, rest2)
          | .error e => .error e
        else if c = ']' then .ok ([v], rest1)
        else .error .invalidSyntax
/-- Reads the members of an object up to and including the closing brace;
the input starts at the first key. -/
def parseMembers : Nat → Nat → List Char → Except DecodeError (List (String × JSON) × List Char)
  | 0, _, _ => .error .invalidSyntax
  | fuel + 1, depth, cs =>
    match skipWS cs with
    | [] => .error .unexpectedEnd
    | q :: rest =>
      if q = '"' then
        match readString rest with
        | .error e => .error e
        | .ok (key, rest1) =>
          match skipWS rest1 with
          | [] => .error .unexpectedEnd
          | c :: rest2 =>
            if c = ':' then
              match parseValue fuel depth rest2 with
              | .error e => .error e
              | .ok (v, rest3) =>
                match skipWS rest3 with
                | [] => .error .unexpectedEnd
                | c1 :: rest4 =>
                  if c1 = ',' then
                    match parseMembers fuel depth rest4 with
                    | .ok (ms, rest5) => .ok ((key, v) :: ms, rest5)
                    | .error e => .error e
                  else if c1 = '}' then .ok ([(key, v)], rest4)
                  else .error .invalidSyntax
            else .error .invalidSyntax
      else .error .invalidSyntax
end

/-- Reads a complete JSON text: one value surrounded by optional white space. -/
def parseJSON (input : String) : Except DecodeError JSON :=
  match parseValue (2 * input.length + 2) 0 input.data with
  | .error e => .error e
  | .ok (v, rest) =>
    match skipWS rest with
    | [] => .ok v
    | _ :: _ => .error .invalidSyntax

/-! ## Decoding into `KeenResult` (`encoding/json`, struct tags of client.go) -/

/-- Records a type error unless one is recorded already: decoding goes on and
`json.Unmarshal` reports the first one at the end. -/
def saveError (saved : Option DecodeError) (e : DecodeError) : Option DecodeError :=
  match saved with
  | some s => some s
  | none => some e

/-- Case folding that relates a character to an ASCII letter: the two cases of
a letter, the long s and the Kelvin sign. -/
def foldChar (c : Char) : Char :=
  if c = Char.ofNat 0x17F then 's'
  else if c = Char.ofNat 0x212A then 'k'
  else c.toLower

/-- Case-insensitive match of a JSON key against an ASCII field name. -/
def equalFold (name key : String) : Bool :=
  name.data.map foldChar == key.data.map foldChar

/-- Decoding a JSON value into a `float64` that holds `old`. -/
def decodeFloat {F : Type} (env : Env F) (old : F) (saved : Option DecodeError) :
    JSON → F × Option DecodeError
  | .null => (old, saved)
  | .number lit =>
    match env.parseFloat lit with
    | some x => (x, saved)
    | none => (old, saveError saved (.typeMismatch ("number " ++ lit) "float64"))
  | .bool _ => (old, saveError saved (.typeMismatch "bool" "float64"))
  | .string _ => (old, saveError saved (.typeMismatch "string" "float64"))
  | .array _ => (old, saveError saved (.typeMismatch "array" "float64"))
  | .object _ => (old, saveError saved (.typeMismatch "object" "float64"))

/-- Decoding a JSON value into a `string` that holds `old`. -/
def decodeString (old : String) (saved : Option DecodeError) :
    JSON → String × Option DecodeError
  | .null => (old, saved)
  | .string s => (s, saved)
  | .number _ => (old, saveError saved (.typeMismatch "number" "string"))
  | .bool _ => (old, saveError saved (.typeMismatch "bool" "string"))
  | .array _ => (old, saveError saved (.typeMismatch "array" "string"))
  | .object _ => (old, saveError saved (.typeMismatch "object" "string"))

/-- The fields of struct `Result`. -/
inductive ResultField where
  | result
  | userId
  deriving DecidableEq, Repr

/-- Field of `Result` a JSON key selects: the field whose tag equals the key,
else the first field whose tag matches it case-insensitively. -/
def findResultField (key : String) : Option ResultField :=
  if key = "result" then some .result
  else if key = "userId" then some .userId
  else if equalFold "result" key then some .result
  else if equalFold "userId" key then some .userId
  else none

/-- Decoding the members of a JSON object, in order, into a `Result`. -/
def decodeResultMembers {F : Type} (env : Env F) :
    List (String × JSON) → Result F → Option DecodeError → Result F × Option DecodeError
  | [], r, saved => (r, saved)
  | (k, v) :: rest, r, saved =>
    match findResultField k with
    | some .result =>
      let x := decodeFloat env r.Result saved v
      decodeResultMembers env rest { r with Result := x.1 } x.2
    | some .userId =>
      let x := decodeString r.UserID saved v
      decodeResultMembers env rest { r with UserID := x.1 } x.2
    | none => decodeResultMembers env rest r saved

/-- Decoding a JSON value into a `Result` that holds `old`. -/
def decodeResult {F : Type} (env : Env F) (old : Result F) (saved : Option DecodeError) :
    JSON → Result F × Option DecodeError
  | .null => (old, saved)
  | .object ms => decodeResultMembers env ms old saved
  | .number _ => (old, saveError saved (.typeMismatch "number" "keen.Result"))
  | .bool _ => (old, saveError saved (.typeMismatch "bool" "keen.Result"))
  | .string _ => (old, saveError saved (.typeMismatch "string" "keen.Result"))
  | .array _ => (old, saveError saved (.typeMismatch "array" "keen.Result"))

/-- The zero value of `Result`. -/
def zeroResult {F : Type} (env : Env F) : Result F :=
  { Result := env.zero, UserID := "" }

/-- Decoding the elements of a JSON array into a slice: element `i` is
decoded into what the backing array holds at `i`, the zero value beyond it. -/
def decodeResultElems {F : Type} (env : Env F) :
    List JSON → List (Result F) → Option DecodeError → List (Result F) × Option DecodeError
  | [], _, saved => ([], saved)
  | v :: vs, backing, saved =>
    let r := decodeResult env (backing.headD (zeroResult env)) saved v
    let rs := decodeResultElems env vs backing.tail r.2
    (r.1 :: rs.1, rs.2)

/-- A slice of `Result`: the contents of its backing array and its length. -/
structure ResultSlice (F : Type) where
  backing : List (Result F)
  len : Nat

/-- Decoding a JSON value into a `[]Result` that holds `old`. -/
def decodeSlice {F : Type} (env : Env F) (old : ResultSlice F) (saved : Option DecodeError) :
    JSON → ResultSlice F × Option DecodeError
  | .null => ({ backing := [], len := 0 }, saved)
  | .array vs =>
    if vs.isEmpty then ({ backing := [], len := 0 }, saved)
    else
      let rs := decodeResultElems env vs old.backing saved
      ({ backing := rs.1 ++ old.backing.drop vs.length, len := vs.length }, rs.2)
  | .number _ => (old, saveError saved (.typeMismatch "number" "[]keen.Result"))
  | .bool _ => (old, saveError saved (.typeMismatch "bool" "[]keen.Result"))
  | .string _ => (old, saveError saved (.typeMismatch "string" "[]keen.Result"))
  | .object _ => (old, saveError saved (.typeMismatch "object" "[]keen.Result"))

/-- Decoding the members of a JSON object, in order, into a `KeenResult`,
whose one field is tagged `result`. -/
def decodeKeenResultMembers {F : Type} (env : Env F) :
    List (String × JSON) → ResultSlice F → Option DecodeError →
      ResultSlice F × Option DecodeError
  | [], s, saved => (s, saved)
  | (k, v) :: rest, s, saved =>
    if k = "result" ∨ equalFold "result" k = true then
      let x := decodeSlice env s saved v
      decodeKeenResultMembers env rest x.1 x.2
    else decodeKeenResultMembers env rest s saved

/-- Decoding a JSON value into a zero `KeenResult`. -/
def decodeKeenResult {F : Type} (env : Env F) : JSON → KeenResult F × Option DecodeError
  | .null => ({ Result := [] }, none)
  | .object ms =>
    let x := decodeKeenResultMembers env ms { backing := [], len := 0 } none
    ({ Result := x.1.backing.take x.1.len }, x.2)
  | .number _ => ({ Result := [] }, some (.typeMismatch "number" "keen.KeenResult"))
  | .bool _ => ({ Result := [] }, some (.typeMismatch "bool" "keen.KeenResult"))
  | .string _ => ({ Result := [] }, some (.typeMismatch "string" "keen.KeenResult"))
  | .array _ => ({ Result := [] }, some (.typeMismatch "array" "keen.KeenResult"))

/-- Function `json.Unmarshal(data, &keenResult)` on a zero `keenResult`: the
input is checked for syntax as a whole, then decoded. -/
def Unmarshal {F : Type} (env : Env F) (data : String) : Except DecodeError (KeenResult F) :=
  match parseJSON data with
  | .error e => .error e
  | .ok v =>
    match decodeKeenResult env v with
    | (kr, none) => .ok kr
    | (_, some e) => .error e

/-- Method `Client.GetAnalysis`, client.go lines 92-109. The error of
`doRequest` is overwritten by that of `json.Unmarshal` (line 102), which
receives the nil slice when `doRequest` failed. -/
def GetAnalysis {F : Type} (env : Env F) (c : Client) (cmd : Command) :
    Outcome (KeenResult F) :=
  let s := queryPath cmd
  let r := doRequest env c "GET" s none
  let res := match r.result with
    | .ok respBody => respBody
    | .error _ => ""
  match Unmarshal env res with
  | .error e => { sent := r.sent, result := .error (.decode e) }
  | .ok keenResult => { sent := r.sent, result := .ok keenResult }

/-! ## Sample data -/

/-- A client as `NewClient` builds it. -/
def sampleClient : Client := NewClient "read-key" "write-key" "p1"

/-- Value of a run of decimal digits. -/
def digitsValue (ds : List Char) : Nat :=
  ds.foldl (fun acc c => acc * 10 + (c.toNat - 48)) 0

/-- Decimal mantissa and exponent of a number literal: its absolute value is
the mantissa times ten to the exponent. -/
def decimalOf (lit : List Char) : Nat × Int :=
  let body := lit.dropWhile (fun c => c == '-')
  let mant := body.takeWhile (fun c => !(c == 'e' || c == 'E'))
  let expPart := (body.dropWhile (fun c => !(c == 'e' || c == 'E'))).drop 1
  let intDigits := mant.takeWhile (fun c => !(c == '.'))
  let fracDigits := (mant.dropWhile (fun c => !(c == '.'))).drop 1
  let expDigits := expPart.dropWhile (fun c => c == '+' || c == '-')
  let e : Int := digitsValue expDigits
  (digitsValue (intDigits ++ fracDigits),
    (if expPart.head? = some '-' then -e else e) - fracDigits.length)

/-- Power of a natural number by repeated squaring; `fuel` bounds the number
of halvings of the exponent. -/
def powNat (b : Nat) : Nat → Nat → Nat
  | 0, _ => 1
  | fuel + 1, e =>
    if e = 0 then 1
    else if e % 2 = 0 then powNat b fuel (e / 2) * powNat b fuel (e / 2)
    else powNat b fuel (e / 2) * powNat b fuel (e / 2) * b

/-- Whether a number literal rounds beyond the largest `float64`, which is
when `strconv.ParseFloat` reports a range error: its absolute value is at
least `2^1024 - 2^970`. -/
def overflowsFloat64 (lit : String) : Bool :=
  let d := decimalOf lit.data
  let limit := (powNat 2 64 54 - 1) * powNat 2 64 970
  if 0 ≤ d.2 then decide (limit ≤ d.1 * powNat 10 64 d.2.toNat)
  else decide (limit * powNat 10 64 (-d.2).toNat ≤ d.1)

/-- An environment whose transport answers every request with the given
status and body. A `float64` is shown as the literal it was read from; a
literal beyond the range of `float64` is refused. -/
def answering (status : Int) (body : String) : Env String :=
  { newRequestError := fun _ _ => none
    roundTrip := fun _ => .ok { StatusCode := status, Body := .ok body }
    quote := fun s => "\"" ++ s ++ "\""
    parseFloat := fun lit => if overflowsFloat64 lit then none else some lit
    zero := "0" }

/-- An event that encodes to a JSON object. -/
def sampleEvent : Event := { marshalJSON := .ok "\x7b\"n\":1\x7d" }

/-- A value `json.Marshal` refuses. -/
def channelEvent : Event := { marshalJSON := .error "json: unsupported type: chan int" }

/-- The query of the specification's example. -/
def sampleCommand : Command :=
  { TargetProperty := "value", GroupBy := "page", Type_ := "count"
    EventCollection := "clicks", Filter := { Percentile := "", Timeframe := "" } }

/-- A character that can follow a value inside an array or an object. -/
def IsDelimiter (c : Char) : Prop := c = ',' ∨ c = ']' ∨ c = '\x7d'


/-! ## JSON literals, as the JSON grammar gives them -/

/-- The decimal digits. -/
def decimalDigits : List Char := ['0', '1', '2', '3', '4', '5', '6', '7', '8', '9']

/-- A non-empty run of decimal digits. -/
def IsDigits (ds : List Char) : Prop :=
  ds ≠ [] ∧ ∀ c ∈ ds, c ∈ decimalDigits

/-- Integer part of a number: a single zero, or a non-zero digit followed by
digits. -/
def IsIntPart (cs : List Char) : Prop :=
  cs = ['0'] ∨ ∃ d ds, cs = d :: ds ∧ d ∈ decimalDigits ∧ d ≠ '0' ∧ ∀ c ∈ ds, c ∈ decimalDigits

/-- Fraction part of a number: nothing, or a dot followed by digits. -/
def IsFracPart (cs : List Char) : Prop :=
  cs = [] ∨ ∃ ds, cs = '.' :: ds ∧ IsDigits ds

/-- Exponent part of a number: nothing, or `e` or `E`, an optional sign and
digits. -/
def IsExpPart (cs : List Char) : Prop :=
  cs = [] ∨ ∃ e sign ds, cs = e :: (sign ++ ds) ∧ (e = 'e' ∨ e = 'E') ∧
    (sign = [] ∨ sign = ['+'] ∨ sign = ['-']) ∧ IsDigits ds

/-- A JSON number literal: an optional minus sign, an integer part, an
optional fraction part and an optional exponent part. -/
def IsNumberText (cs : List Char) : Prop :=
  ∃ sign int frac exp, cs = sign ++ (int ++ (frac ++ exp)) ∧ (sign = [] ∨ sign = ['-']) ∧
    IsIntPart int ∧ IsFracPart frac ∧ IsExpPart exp

/-- The hexadecimal digits, in both cases, with their values. -/
def hexDigitTable : List (Char × Nat) :=
  [('0', 0), ('1', 1), ('2', 2), ('3', 3), ('4', 4), ('5', 5), ('6', 6), ('7', 7), ('8', 8),
   ('9', 9), ('a', 10), ('b', 11), ('c', 12), ('d', 13), ('e', 14), ('f', 15),
   ('A', 10), ('B', 11), ('C', 12), ('D', 13), ('E', 14), ('F', 15)]

/-- Four hexadecimal digits and the number they write. -/
def IsHex4 (a b c d : Char) (n : Nat) : Prop :=
  ∃ x y z w, (a, x) ∈ hexDigitTable ∧ (b, y) ∈ hexDigitTable ∧ (c, z) ∈ hexDigitTable ∧
    (d, w) ∈ hexDigitTable ∧ n = 4096 * x + 256 * y + 16 * z + w

/-- The one-letter escapes with the characters they name. -/
def escapeTable : List (Char × Char) :=
  [('"', '"'), ('\\', '\\'), ('/', '/'), ('b', Char.ofNat 8), ('f', Char.ofNat 12),
   ('n', Char.ofNat 10), ('r', Char.ofNat 13), ('t', Char.ofNat 9)]

/-- The code unit `n` is a high surrogate and the text starts with the `\u`
escape of a low surrogate. -/
def FollowedByLow (n : Nat) (l : List Char) : Prop :=
  n < 0xDC00 ∧ ∃ a b c d lo rest, l = '\\' :: 'u' :: a :: b :: c :: d :: rest ∧
    IsHex4 a b c d lo ∧ 0xDC00 ≤ lo ∧ lo < 0xE000

/-- The inside of a JSON string literal and the characters it denotes. A
surrogate escape that is not part of a pair denotes the replacement
character, as `encoding/json` reads it. -/
inductive StrBody : List Char → List Char → Prop where
  | done : StrBody [] []
  | plain (c : Char) (l u : List Char) :
    32 ≤ c.toNat → c ≠ '"' → c ≠ '\\' → StrBody l u → StrBody (c :: l) (c :: u)
  | escape (e c : Char) (l u : List Char) :
    (e, c) ∈ escapeTable → StrBody l u → StrBody ('\\' :: e :: l) (c :: u)
  | unicode (a b c d : Char) (n : Nat) (l u : List Char) :
    IsHex4 a b c d n → (n < 0xD800 ∨ 0xE000 ≤ n) → StrBody l u →
    StrBody ('\\' :: 'u' :: a :: b :: c :: d :: l) (Char.ofNat n :: u)
  | pair (a b c d a1 b1 c1 d1 : Char) (hi lo : Nat) (l u : List Char) :
    IsHex4 a b c d hi → IsHex4 a1 b1 c1 d1 lo →
    0xD800 ≤ hi → hi < 0xDC00 → 0xDC00 ≤ lo → lo < 0xE000 → StrBody l u →
    StrBody ('\\' :: 'u' :: a :: b :: c :: d :: '\\' :: 'u' :: a1 :: b1 :: c1 :: d1 :: l)
      (Char.ofNat (0x10000 + (hi - 0xD800) * 0x400 + (lo - 0xDC00)) :: u)
  | lone (a b c d : Char) (n : Nat) (l u : List Char) :
    IsHex4 a b c d n → 0xD800 ≤ n → n < 0xE000 → ¬ FollowedByLow n l → StrBody l u →
    StrBody ('\\' :: 'u' :: a :: b :: c :: d :: l) (Char.ofNat 0xFFFD :: u)

/-- A JSON string literal and the string it denotes. -/
def IsStringLit (lit value : String) : Prop :=
  ∃ body, lit.data = '"' :: (body ++ ['"']) ∧ StrBody body value.data

/-- A scalar JSON value as it stands in a body: a number literal, a string
literal with the string it denotes, `true` or `false`, or `null`. -/
inductive Scalar where
  | number (lit : String)
  | string (lit : String) (value : String)
  | bool (b : Bool)
  | null

/-- Text of a scalar. -/
def Scalar.text : Scalar → String
  | .number lit => lit
  | .string lit _ => lit
  | .bool true => "true"
  | .bool false => "false"
  | .null => "null"

/-- The literals of the scalar are literals of the JSON grammar. -/
def Scalar.WellFormed : Scalar → Prop
  | .number lit => IsNumberText lit.data
  | .string lit value => IsStringLit lit value
  | .bool _ => True
  | .null => True

/-- The JSON value of a scalar. -/
def Scalar.toJSON : Scalar → JSON
  | .number lit => .number lit
  | .string _ value => .string value
  | .bool b => .bool b
  | .null => .null

/-- An entry `{"result":x,"userId":y}` of a response whose two values are any
scalars. -/
structure LooseEntry where
  result : Scalar
  userId : Scalar

/-- Text `{"result":x,"userId":y}` of an entry. -/
def LooseEntry.text (e : LooseEntry) : String :=
  "\x7b\"result\":" ++ e.result.text ++ ",\"userId\":" ++ e.userId.text ++ "\x7d"

/-- Texts of the entries, separated by commas. -/
def looseEntriesText : List LooseEntry → String
  | [] => ""
  | [e] => e.text
  | e :: e1 :: es => e.text ++ "," ++ looseEntriesText (e1 :: es)

/-- Text `{"result":[...]}` of a response with the given entries. -/
def looseBody (entries : List LooseEntry) : String :=
  "\x7b\"result\":[" ++ looseEntriesText entries ++ "]\x7d"

/-- What `encoding/json` reports for a scalar met at a `float64`: nothing for
a number in range and for `null`. -/
def floatFieldError {F : Type} (env : Env F) : Scalar → Option DecodeError
  | .number lit =>
    match env.parseFloat lit with
    | some _ => none
    | none => some (.typeMismatch ("number " ++ lit) "float64")
  | .string _ _ => some (.typeMismatch "string" "float64")
  | .bool _ => some (.typeMismatch "bool" "float64")
  | .null => none

/-- What `encoding/json` reports for a scalar met at a `string`: nothing for a
string and for `null`. -/
def stringFieldError : Scalar → Option DecodeError
  | .number _ => some (.typeMismatch "number" "string")
  | .string _ _ => none
  | .bool _ => some (.typeMismatch "bool" "string")
  | .null => none

/-- The `float64` a scalar leaves in a zero field: the value of a number in
range, zero otherwise. -/
def floatFieldValue {F : Type} (env : Env F) : Scalar → F
  | .number lit =>
    match env.parseFloat lit with
    | some x => x
    | none => env.zero
  | _ => env.zero

/-- The `string` a scalar leaves in a zero field: the string denoted, the
empty string otherwise. -/
def stringFieldValue : Scalar → String
  | .string _ value => value
  | _ => ""

/-- The first type error of an entry, in the order of its fields. -/
def LooseEntry.error {F : Type} (env : Env F) (e : LooseEntry) : Option DecodeError :=
  (floatFieldError env e.result).or (stringFieldError e.userId)

/-- The first type error of the entries, in the order of the body. -/
def firstMismatch {F : Type} (env : Env F) : List LooseEntry → Option DecodeError
  | [] => none
  | e :: es => (e.error env).or (firstMismatch env es)

/-- The `Result` an entry decodes to when no type error occurs. -/
def LooseEntry.toResult {F : Type} (env : Env F) (e : LooseEntry) : Result F :=
  { Result := floatFieldValue env e.result, UserID := stringFieldValue e.userId }

/-- The JSON value of an entry. -/
def LooseEntry.toJSON (e : LooseEntry) : JSON :=
  .object [("result", e.result.toJSON), ("userId", e.userId.toJSON)]

/-! ## The batch body the specification describes -/

/-- Texts separated by commas. -/
def commaSeparated : List String → String
  | [] => ""
  | [t] => t
  | t :: t1 :: ts => t ++ "," ++ commaSeparated (t1 :: ts)

/-- The text is the JSON encoding of the element: `null` for the nil
interface value, and for an event the text its own encoding gives. -/
def EncodesTo : Option Event → String → Prop
  | none, text => text = "null"
  | some e, text => e.marshalJSON = .ok text

/-- The text is a JSON array whose elements are the encodings of the events,
in the order of the sequence. -/
def IsArrayOf (events : List (Option Event)) (text : String) : Prop :=
  ∃ encs : List String, List.Forall₂ EncodesTo events encs ∧
    text = "[" ++ commaSeparated encs ++ "]"

/-- The text is an object member: a JSON string literal that denotes the
collection name, a colon and the array of the collection's events. -/
def IsMemberOf (m : String × List (Option Event)) (text : String) : Prop :=
  ∃ key arr : String, IsStringLit key m.1 ∧ IsArrayOf m.2 arr ∧ text = key ++ ":" ++ arr

/-- The body the specification describes for a batch, given as the list of
its collection names with their event sequences: the text of a JSON object
with one member for each collection of the batch, in some order, whose key is
the collection name and whose value is the array of the encodings of that
collection's events, in order. -/
def IsBatchObject (batch : List (String × List (Option Event))) (body : String) : Prop :=
  ∃ (members : List (String × List (Option Event))) (texts : List String),
    members.Perm batch ∧ List.Forall₂ IsMemberOf members texts ∧
    body = "\x7b" ++ commaSeparated texts ++ "\x7d"

/-- A second event, with another encoding. -/
def secondEvent : Event := { marshalJSON := .ok "\x7b\"n\":2\x7d" }

/-- A batch of two collections, given out of the order of their names. -/
def sampleBatch : List (String × List (Option Event)) :=
  [("signups", [some sampleEvent, some secondEvent, none]), ("purchases", [])]

/-- The body of the request for the sample batch. -/
def sampleBatchBody : String :=
  "\x7b\"purchases\":[],\"signups\":[\x7b\"n\":1\x7d,\x7b\"n\":2\x7d,null]\x7d"

/-! ## The response body the specification describes -/

/-- One entry of a query response: the number literal and the string literal
as they stand in the body, the `float64` the number is parsed to and the
string the string literal denotes. -/
structure WireEntry (F : Type) where
  numLit : String
  strLit : String
  value : F
  user : String

/-- The two literals of the entry are literals of the JSON grammar, the
number is in the range of `float64` with the given value, and the string
literal denotes the given string. -/
def WireEntry.WellFormed {F : Type} (env : Env F) (e : WireEntry F) : Prop :=
  IsNumberText e.numLit.data ∧ env.parseFloat e.numLit = some e.value ∧
    IsStringLit e.strLit e.user

/-- Text `{"result":n,"userId":u}` of an entry. -/
def entryText {F : Type} (e : WireEntry F) : String :=
  "\x7b\"result\":" ++ e.numLit ++ ",\"userId\":" ++ e.strLit ++ "\x7d"

/-- Texts of the entries, separated by commas. -/
def entriesText {F : Type} : List (WireEntry F) → String
  | [] => ""
  | [e] => entryText e
  | e :: e1 :: es => entryText e ++ "," ++ entriesText (e1 :: es)

/-- Text `{"result":[...]}` of a query response with the given entries. -/
def resultBody {F : Type} (entries : List (WireEntry F)) : String :=
  "\x7b\"result\":[" ++ entriesText entries ++ "]\x7d"

/-- The `Result` an entry stands for. -/
def WireEntry.toResult {F : Type} (e : WireEntry F) : Result F :=
  { Result := e.value, UserID := e.user }

/-- The entry seen as an entry holding two scalars. -/
def WireEntry.toLoose {F : Type} (e : WireEntry F) : LooseEntry :=
  { result := .number e.numLit, userId := .string e.strLit e.user }

/-- The response body of the specification's example. -/
def sampleBody : String := "\x7b\"result\":[\x7b\"result\":42.5,\"userId\":\"u1\"\x7d]\x7d"

/-- The entry of the specification's example. -/
def sampleEntry : WireEntry String :=
  { numLit := "42.5", strLit := "\"u1\"", value := "42.5", user := "u1" }

/-- A second entry, whose string literal is written with escapes. -/
def escapedEntry : WireEntry String :=
  { numLit := "-1e3", strLit := "\"\\u0041\\u0042\\n\\ud83d\\ude00\\udc00\"", value := "-1e3",
    user := String.mk ['A', 'B', '\n', Char.ofNat 0x1F600, Char.ofNat 0xFFFD] }

/-- A response body with the two entries, in this order. -/
def twoEntryBody : String :=
  "\x7b\"result\":[\x7b\"result\":42.5,\"userId\":\"u1\"\x7d,\x7b\"result\":-1e3,\"userId\":\"\\u0041\\u0042\\n\\ud83d\\ude00\\udc00\"\x7d]\x7d"

/-- A response body of the described form whose number is beyond the range of
`float64`. -/
def overflowBody : String :=
  "\x7b\"result\":[\x7b\"result\":1e400,\"userId\":\"u1\"\x7d]\x7d"

/-- Entries whose values have other JSON types than the fields: two type
errors in the first entry, one in the second. -/
def mismatchedEntries : List LooseEntry :=
  [{ result := .string "\"x\"" "x", userId := .number "5" },
   { result := .bool true, userId := .null }]

/-- The response body with the mismatched entries. -/
def mismatchedBody : String :=
  "\x7b\"result\":[\x7b\"result\":\"x\",\"userId\":5\x7d,\x7b\"result\":true,\"userId\":null\x7d]\x7d"

/-! ## Time (`time`) -/

/-- Go `time.Time`: the instant, as seconds and nanoseconds from the Unix
epoch, and the offset in seconds east of UTC of the zone it is displayed in.
Arithmetic on instants is exact; package `time` computes on 64-bit values,
which agree with it for every year of at most nine digits. -/
structure Time where
  sec : Int
  nsec : Nat
  nsec_lt : nsec < 1000000000
  offset : Int

/-- Method `Time.UTC`: the same instant, displayed in UTC. -/
def Time.UTC (t : Time) : Time :=
  { t with offset := 0 }

/-- Days from 0001-01-01 to 1970-01-01. -/
def unixEpochDay : Int := 719162

/-- Days from 0001-01-01 to the displayed day of `t`. -/
def Time.days (t : Time) : Int :=
  (t.sec + t.offset) / 86400 + unixEpochDay

/-- Second of the displayed day of `t`. -/
def Time.secondOfDay (t : Time) : Nat :=
  ((t.sec + t.offset) % 86400).toNat

/-- Function `isLeap`. -/
def isLeap (year : Int) : Bool :=
  year % 4 == 0 && (year % 100 != 0 || year % 400 == 0)

/-- The year part of `absDate`: the year and the zero-based day of the year
of a day counted from 0001-01-01, by cutting off cycles of 400, 100, 4 and 1
years. -/
def yearAndDay (d : Int) : Int × Nat :=
  let n400 := d / 146097
  let d1 := d - 146097 * n400
  let n100 := d1 / 36524
  let n100 := n100 - n100 / 4
  let d2 := d1 - 36524 * n100
  let n4 := d2 / 1461
  let d3 := d2 - 1461 * n4
  let n1 := d3 / 365
  let n1 := n1 - n1 / 4
  let d4 := d3 - 365 * n1
  (400 * n400 + 100 * n100 + 4 * n4 + n1 + 1, d4.toNat)

/-- Table `daysBefore`: days of a common year before the end of each month. -/
def daysBefore : List Nat := [0, 31, 59, 90, 120, 151, 181, 212, 243, 273, 304, 334, 365]

/-- The month part of `absDate`: month and day of the month of a zero-based
day of the year. -/
def monthAndDay (leap : Bool) (yday : Nat) : Nat × Nat :=
  if leap && yday == 59 then (2, 29)
  else
    let day := if leap && yday > 59 then yday - 1 else yday
    let month := day / 31
    let endDay := daysBefore.getD (month + 1) 0
    if day ≥ endDay then (month + 2, day - endDay + 1)
    else (month + 1, day - daysBefore.getD month 0 + 1)

/-- Character of a decimal digit. -/
def digitChar (d : Nat) : Char := Char.ofNat (48 + d % 10)

/-- Decimal digits of `n`, the most significant first, in front of `acc`;
`fuel` bounds the number of digits. -/
def digitsAux : Nat → Nat → List Char → List Char
  | 0, _, acc => acc
  | fuel + 1, n, acc =>
    if n < 10 then digitChar n :: acc
    else digitsAux fuel (n / 10) (digitChar (n % 10) :: acc)

/-- Decimal digits of `n`. -/
def digits (n : Nat) : List Char := digitsAux (n + 1) n []

/-- Function `appendInt`: `x` in decimal, padded with zeros to `width`
digits, after a minus sign when negative. -/
def appendInt (x : Int) (width : Nat) : List Char :=
  let ds := digits x.natAbs
  (if x < 0 then ['-'] else []) ++ List.replicate (width - ds.length) '0' ++ ds

/-- Function `formatNano` without trimming: a dot and the first `n` of the
nine digits of the nanoseconds. -/
def formatNano (nsec : Nat) (n : Nat) : List Char :=
  '.' :: (appendInt nsec 9).take n

/-- The elements of a layout met in `Timestamp`, named after the constants of
package `time`. -/
inductive LayoutChunk where
  | stdLongYear
  | stdZeroMonth
  | stdZeroDay
  | stdHour
  | stdZeroMinute
  | stdZeroSecond
  | stdFracSecond0 (n : Nat)
  | literal (c : Char)
  deriving DecidableEq, Repr

/-- Whether `c` in front of `rest` is literal text of a layout. -/
def isLayoutLiteral (c : Char) (rest : List Char) : Bool :=
  if c = '-' ∨ c = 'Z' then
    match rest with
    | a :: b :: _ => !(a == '0' && b == '7')
    | _ => true
  else if c = '.' ∨ c = ',' then
    match rest with
    | a :: _ => !(a == '0' || a == '9')
    | _ => true
  else
    !(c == 'J' || c == 'M' || c == '0' || c == '1' || c == '2' || c == '_' || c == '3' ||
      c == '4' || c == '5' || c == 'P' || c == 'p')

/-- Puts a chunk in front of the chunks of the rest. -/
def consChunk (k : LayoutChunk) : Option (List LayoutChunk) → Option (List LayoutChunk)
  | some ks => some (k :: ks)
  | none => none

/-- Function `nextStdChunk` iterated over a layout, for the elements above;
`none` for a layout that holds another element. -/
def parseLayout : List Char → Option (List LayoutChunk)
  | [] => some []
  | '2' :: '0' :: '0' :: '6' :: rest => consChunk .stdLongYear (parseLayout rest)
  | '0' :: '1' :: rest => consChunk .stdZeroMonth (parseLayout rest)
  | '0' :: '2' :: rest => consChunk .stdZeroDay (parseLayout rest)
  | '1' :: '5' :: rest => consChunk .stdHour (parseLayout rest)
  | '0' :: '4' :: rest => consChunk .stdZeroMinute (parseLayout rest)
  | '0' :: '5' :: rest => consChunk .stdZeroSecond (parseLayout rest)
  | '.' :: '0' :: '0' :: '0' :: rest =>
    match rest with
    | [] => some [.stdFracSecond0 3]
    | a :: _ =>
      if isDigit a then none else consChunk (.stdFracSecond0 3) (parseLayout rest)
  | c :: rest =>
    if isLayoutLiteral c rest then consChunk (.literal c) (parseLayout rest) else none

/-- What `Format` writes for one element of the layout. -/
def formatChunk (t : Time) : LayoutChunk → List Char
  | .stdLongYear => appendInt (yearAndDay t.days).1 4
  | .stdZeroMonth =>
    appendInt (monthAndDay (isLeap (yearAndDay t.days).1) (yearAndDay t.days).2).1 2
  | .stdZeroDay =>
    appendInt (monthAndDay (isLeap (yearAndDay t.days).1) (yearAndDay t.days).2).2 2
  | .stdHour => appendInt (t.secondOfDay / 3600) 2
  | .stdZeroMinute => appendInt (t.secondOfDay % 3600 / 60) 2
  | .stdZeroSecond => appendInt (t.secondOfDay % 60) 2
  | .stdFracSecond0 n => formatNano t.nsec n
  | .literal c => [c]

/-- Method `Time.Format`; the empty string for a layout outside the model. -/
def Time.Format (t : Time) (layout : String) : String :=
  match parseLayout layout.data with
  | some chunks => String.mk (chunks.map (formatChunk t)).flatten
  | none => ""

/-- Function `Timestamp`, client.go lines 24-27. -/
def Timestamp (t : Time) : String :=
  t.UTC.Format "2006-01-02T15:04:05.000Z"

/-! ## The timestamp the specification describes -/

/-- The `width` low decimal digits of `n`, the most significant first. -/
def fixedDigits : Nat → Nat → List Char
  | 0, _ => []
  | width + 1, n => fixedDigits width (n / 10) ++ [digitChar (n % 10)]

/-- Text `YYYY-MM-DDTHH:MM:SS.mmmZ` for the given fields. -/
def renderTimestamp (year month day hour minute second milli : Nat) : String :=
  String.mk (fixedDigits 4 year ++ '-' :: fixedDigits 2 month ++ '-' :: fixedDigits 2 day ++
    'T' :: fixedDigits 2 hour ++ ':' :: fixedDigits 2 minute ++ ':' :: fixedDigits 2 second ++
    '.' :: fixedDigits 3 milli ++ ['Z'])

/-- Leap years of the Gregorian calendar. -/
def gregorianLeap (year : Int) : Bool :=
  decide (4 ∣ year ∧ (¬ 100 ∣ year ∨ 400 ∣ year))

/-- Number of days of a month. -/
def daysInMonth (leap : Bool) (month : Nat) : Nat :=
  if month = 2 then (if leap then 29 else 28)
  else if month = 4 ∨ month = 6 ∨ month = 9 ∨ month = 11 then 30
  else 31

/-- Number of days of the year before the first of a month. -/
def daysBeforeMonth (leap : Bool) (month : Nat) : Nat :=
  ((List.range (month - 1)).map (fun i => daysInMonth leap (i + 1))).sum

/-- Number of days from 0001-01-01 to the first of January of a year of the
proleptic Gregorian calendar. -/
def daysBeforeYear (year : Int) : Int :=
  365 * (year - 1) + (year - 1) / 4 - (year - 1) / 100 + (year - 1) / 400

/-- Seconds from the Unix epoch to the given UTC calendar date and time. -/
def civilToUnix (year : Int) (month day hour minute second : Nat) : Int :=
  (daysBeforeYear year + daysBeforeMonth (gregorianLeap year) month + (day - 1 : Nat)
      - daysBeforeYear 1970) * 86400
    + hour * 3600 + minute * 60 + second

/-- The instant that the zone at `offset` seconds east of UTC displays as the
given calendar date and time. -/
def zonedTime (year : Int) (month day hour minute second : Nat) (offset : Int) : Time :=
  { sec := civilToUnix year month day hour minute second - offset
    nsec := 0
    nsec_lt := by decide
    offset := offset }

/-- The instant 2021-03-04T10:00:00-05:00 of the specification's example. -/
def sampleTime : Time := zonedTime 2021 3 4 10 0 0 (-18000)

/-- The first instant of the year 10000: 10000-01-01T00:00:00Z. -/
def year10000 : Time := zonedTime 10000 1 1 0 0 0 0

/-! ## Status handling -/

theorem statusIsError_eq_false_iff (s : Int) :
    statusIsError s = false ↔ 200 ≤ s ∧ s ≤ 399 := by
  unfold statusIsError
  rcases Int.lt_or_le s 0 with h | h
  · have h1 : Int.tdiv s 200 ≤ 0 := by
      have h2 : s = -(-s) := by omega
      rw [h2, Int.neg_tdiv]
      have h3 : 0 ≤ Int.tdiv (-s) 200 := Int.tdiv_nonneg (by omega) (by omega)
      omega
    constructor
    · intro hs
      simp at hs
      omega
    · intro hs
      omega
  · have h1 : Int.tdiv s 200 = s / 200 := Int.tdiv_eq_ediv h (by omega)
    rw [h1]
    constructor
    · intro hs
      simp at hs
      omega
    · intro hs
      have : s / 200 = 1 := by omega
      simp [this]

/-- Outcome of `doRequest` once the request is built and the transport has
answered with a readable body. -/
theorem doRequest_of_response {F : Type} (env : Env F) (c : Client) (method path : String)
    (body : Option Payload) (req : Request) (s : Int) (b : String)
    (hreq : makeRequest env c method path body = .ok req)
    (hresp : env.roundTrip req = .ok { StatusCode := s, Body := .ok b }) :
    doRequest env c method path body =
      { sent := [req]
        result := if 200 ≤ s ∧ s ≤ 399 then .ok b else .error (.api b) } := by
  unfold doRequest
  rw [hreq]
  simp only [hresp, readResponse]
  by_cases hs : 200 ≤ s ∧ s ≤ 399
  · have := (statusIsError_eq_false_iff s).2 hs
    simp [this, hs]
  · have : statusIsError s = true := by
      cases h : statusIsError s
      · exact absurd ((statusIsError_eq_false_iff s).1 h) hs
      · rfl
    simp [this, hs]

/-- Requests `doRequest` passes to the transport: the one `makeRequest`
built, or none when it failed. -/
theorem doRequest_sent {F : Type} (env : Env F) (c : Client) (method path : String)
    (body : Option Payload) :
    (doRequest env c method path body).sent =
      match makeRequest env c method path body with
      | .ok req => [req]
      | .error _ => [] := by
  unfold doRequest
  cases makeRequest env c method path body with
  | error e => rfl
  | ok req =>
    simp only
    cases env.roundTrip req with
    | error e => rfl
    | ok resp => rfl

/-- C10. For every status code `s` and body `b` the transport answers with,
`doRequest` returns `b` without error exactly when `200 ≤ s ≤ 399`, which is
when the truncating division `s/200` equals `1`; otherwise it returns no body
and the error whose message is `b`. -/
theorem doRequest_status {F : Type} (env : Env F) (c : Client) (method path : String)
    (body : Option Payload) (req : Request) (s : Int) (b : String)
    (hreq : makeRequest env c method path body = .ok req)
    (hresp : env.roundTrip req = .ok { StatusCode := s, Body := .ok b }) :
    ((doRequest env c method path body).result = .ok b ↔ 200 ≤ s ∧ s ≤ 399) ∧
    (Int.tdiv s 200 = 1 ↔ 200 ≤ s ∧ s ≤ 399) ∧
    (¬ (200 ≤ s ∧ s ≤ 399) →
      (doRequest env c method path body).result = .error (.api b) ∧
      (Error.api b).message = some b) := by
  rw [doRequest_of_response env c method path body req s b hreq hresp]
  refine ⟨?_, ?_, ?_⟩
  · by_cases hs : 200 ≤ s ∧ s ≤ 399 <;> simp [hs]
  · have h := statusIsError_eq_false_iff s
    unfold statusIsError at h
    rw [← h]
    simp
  · intro hs
    simp [hs, Error.message]

theorem doRequest_status_witness :
    ((doRequest (answering 399 "ok") sampleClient "GET" "/queries/count" none).result
        = .ok "ok" ↔ (200 : Int) ≤ 399 ∧ (399 : Int) ≤ 399) ∧
    (Int.tdiv 399 200 = 1 ↔ (200 : Int) ≤ 399 ∧ (399 : Int) ≤ 399) ∧
    (¬ ((200 : Int) ≤ 399 ∧ (399 : Int) ≤ 399) →
      (doRequest (answering 399 "ok") sampleClient "GET" "/queries/count" none).result
        = .error (.api "ok") ∧
      (Error.api "ok").message = some "ok") :=
  doRequest_status (answering 399 "ok") sampleClient "GET" "/queries/count" none
    { method := "GET"
      url := "https://api.keen.io/3.0/projects/p1/queries/count&api_key=read-key"
      body := none, contentLength := 0, header := [] }
    399 "ok" rfl rfl

/-- A request `doRequest` sent is the one `makeRequest` built. -/
theorem makeRequest_of_sent {F : Type} (env : Env F) (c : Client) (method path : String)
    (body : Option Payload) (req : Request)
    (h : (doRequest env c method path body).sent = [req]) :
    makeRequest env c method path body = .ok req := by
  rw [doRequest_sent] at h
  cases hm : makeRequest env c method path body with
  | error e => rw [hm] at h; simp at h
  | ok r => rw [hm] at h; simp at h; rw [h]

theorem AddEvent_sent {F : Type} (env : Env F) (c : Client) (collection : String)
    (event : Option Event) :
    (AddEvent env c collection event).sent =
      (doRequest env c "POST" ("/events/" ++ collection) (event.map Payload.event)).sent := by
  unfold AddEvent
  dsimp only
  split <;> rfl

theorem AddEvents_sent {F : Type} (env : Env F) (c : Client) (events : EventBatch) :
    (AddEvents env c events).sent =
      (doRequest env c "POST" "/events" (some (Payload.batch events))).sent := by
  unfold AddEvents
  dsimp only
  split <;> rfl

theorem AddEvent_result_error {F : Type} (env : Env F) (c : Client) (collection : String)
    (event : Option Event) (err : Error)
    (h : (doRequest env c "POST" ("/events/" ++ collection)
      (event.map Payload.event)).result = .error err) :
    (AddEvent env c collection event).result = .error err := by
  unfold AddEvent
  simp only [h]

theorem AddEvents_result_error {F : Type} (env : Env F) (c : Client) (events : EventBatch)
    (err : Error)
    (h : (doRequest env c "POST" "/events" (some (Payload.batch events))).result
      = .error err) :
    (AddEvents env c events).result = .error err := by
  unfold AddEvents
  simp only [h]

/-- C1 (as stated, refuted). A transport answer with status 304, which is
outside 200-299, makes `AddEvent` and `AddEvents` succeed: the body is not
turned into an error. -/
theorem addEvent_status_304_succeeds :
    ¬ ((200 : Int) ≤ 304 ∧ (304 : Int) ≤ 299) ∧
    (AddEvent (answering 304 "not modified") sampleClient "purchases"
      (some sampleEvent)).sent.length = 1 ∧
    (AddEvent (answering 304 "not modified") sampleClient "purchases"
      (some sampleEvent)).result = .ok () ∧
    (AddEvents (answering 304 "not modified") sampleClient
      (some [("signups", some [some sampleEvent])])).sent.length = 1 ∧
    (AddEvents (answering 304 "not modified") sampleClient
      (some [("signups", some [some sampleEvent])])).result = .ok () :=
  ⟨by decide, rfl, rfl, rfl, rfl⟩

/-- C1 (amended). For every client, every collection and event or batch whose
request is sent, and every transport response with body `b` whose status code
is outside 200-399, `AddEvent` and `AddEvents` fail with the error whose
message is exactly `b`, whatever the status class. -/
theorem addEvent_addEvents_api_error {F : Type} (env : Env F) (c : Client) (s : Int)
    (b : String) (hs : s < 200 ∨ 399 < s) :
    (∀ (collection : String) (event : Option Event) (req : Request),
      (AddEvent env c collection event).sent = [req] →
      env.roundTrip req = .ok { StatusCode := s, Body := .ok b } →
      (AddEvent env c collection event).result = .error (.api b)) ∧
    (∀ (events : EventBatch) (req : Request),
      (AddEvents env c events).sent = [req] →
      env.roundTrip req = .ok { StatusCode := s, Body := .ok b } →
      (AddEvents env c events).result = .error (.api b)) ∧
    (Error.api b).message = some b := by
  have hns : ¬ (200 ≤ s ∧ s ≤ 399) := by omega
  refine ⟨?_, ?_, rfl⟩
  · intro collection event req hsent hresp
    rw [AddEvent_sent] at hsent
    have hreq := makeRequest_of_sent env c _ _ _ req hsent
    apply AddEvent_result_error
    rw [doRequest_of_response env c _ _ _ req s b hreq hresp]
    simp [hns]
  · intro events req hsent hresp
    rw [AddEvents_sent] at hsent
    have hreq := makeRequest_of_sent env c _ _ _ req hsent
    apply AddEvents_result_error
    rw [doRequest_of_response env c _ _ _ req s b hreq hresp]
    simp [hns]

theorem addEvent_addEvents_api_error_witness :
    ((403 : Int) < 200 ∨ (399 : Int) < 403) ∧
    (AddEvent (answering 403 "forbidden") sampleClient "purchases"
      (some sampleEvent)).result = .error (.api "forbidden") ∧
    (AddEvents (answering 403 "forbidden") sampleClient
      (some [("signups", some [some sampleEvent])])).result = .error (.api "forbidden") ∧
    (Error.api "forbidden").message = some "forbidden" :=
  ⟨by decide,
   (addEvent_addEvents_api_error (answering 403 "forbidden") sampleClient 403 "forbidden"
      (by decide)).1 "purchases" (some sampleEvent) _ rfl rfl,
   (addEvent_addEvents_api_error (answering 403 "forbidden") sampleClient 403 "forbidden"
      (by decide)).2.1 (some [("signups", some [some sampleEvent])]) _ rfl rfl,
   rfl⟩

/-- C2 (failing input). With a transport answering status 403 and body
`forbidden`, `GetAnalysis` sends its request and returns the decode error
`unexpected end of JSON input`: the error of the request is overwritten. -/
theorem getAnalysis_403_decode_error :
    (GetAnalysis (answering 403 "forbidden") sampleClient sampleCommand).sent.length = 1 ∧
    (doRequest (answering 403 "forbidden") sampleClient "GET" (queryPath sampleCommand)
      none).result = .error (.api "forbidden") ∧
    (match (GetAnalysis (answering 403 "forbidden") sampleClient sampleCommand).result with
      | .error err => err = .decode .unexpectedEnd
      | .ok _ => False) ∧
    (Error.decode .unexpectedEnd).message = some "unexpected end of JSON input" ∧
    (Error.decode .unexpectedEnd).message ≠ some "forbidden" :=
  ⟨rfl, rfl, rfl, rfl, by decide⟩

/-- C9 (failing input). For method `POST`, path `/events` and no body,
`makeRequest` returns a request whose URL is the bare path and which carries
no `Authorization` header. -/
theorem makeRequest_post_no_body :
    makeRequest (answering 200 "") sampleClient "POST" "/events" none =
      .ok { method := "POST", url := "/events", body := none, contentLength := 0,
            header := [] } ∧
    "/events" ≠ baseUrl ++ sampleClient.ProjectId ++ "/events" ∧
    ({ method := "POST", url := "/events", body := none, contentLength := 0,
       header := [] } : Request).headerValues "Authorization" = [] :=
  ⟨rfl, by decide, rfl⟩

/-! ## Requests of the three operations -/

theorem parseTemplate_queryTemplate :
    parseTemplate queryTemplate =
      some [.text "/queries/", .field "Type", .text "?event_collection=",
        .field "EventCollection", .text "&target_property=", .field "TargetProperty",
        .text "&group_by=", .field "GroupBy"] := by
  decide

/-- The query template executed on a command. -/
theorem queryPath_eq (cmd : Command) :
    queryPath cmd =
      "/queries/" ++ cmd.Type_ ++ "?event_collection=" ++ cmd.EventCollection ++
        "&target_property=" ++ cmd.TargetProperty ++ "&group_by=" ++ cmd.GroupBy := by
  unfold queryPath
  rw [parseTemplate_queryTemplate]
  simp [executeTemplate, Command.field]

theorem GetAnalysis_sent {F : Type} (env : Env F) (c : Client) (cmd : Command) :
    (GetAnalysis env c cmd).sent = (doRequest env c "GET" (queryPath cmd) none).sent := by
  unfold GetAnalysis
  dsimp only
  split <;> rfl

/-- C4. The request `GetAnalysis` issues is a body-less GET whose URL is the
base URL, the project, the query path with the four fields inserted verbatim
and the read key as `api_key` parameter; it has no `Authorization` header and
does not depend on the filter. No request is issued when `http.NewRequest`
refuses the URL. -/
theorem getAnalysis_request {F : Type} (env : Env F) (c : Client) (cmd : Command) :
    (GetAnalysis env c cmd).sent =
      (if env.newRequestError "GET"
          (baseUrl ++ c.ProjectId ++ "/queries/" ++ cmd.Type_ ++ "?event_collection=" ++
            cmd.EventCollection ++ "&target_property=" ++ cmd.TargetProperty ++
            "&group_by=" ++ cmd.GroupBy ++ "&api_key=" ++ c.ApiKey) = none
        then
          [{ method := "GET"
             url := baseUrl ++ c.ProjectId ++ "/queries/" ++ cmd.Type_ ++
               "?event_collection=" ++ cmd.EventCollection ++ "&target_property=" ++
               cmd.TargetProperty ++ "&group_by=" ++ cmd.GroupBy ++ "&api_key=" ++ c.ApiKey
             body := none, contentLength := 0, header := [] }]
        else []) ∧
    (∀ req ∈ (GetAnalysis env c cmd).sent,
      req.body = none ∧ req.headerValues "Authorization" = []) ∧
    (∀ f : Filter,
      (GetAnalysis env c { cmd with Filter := f }).sent = (GetAnalysis env c cmd).sent) ∧
    (∀ f : Filter,
      queryPath { TargetProperty := "value", GroupBy := "page", Type_ := "count",
                  EventCollection := "clicks", Filter := f } =
        "/queries/count?event_collection=clicks&target_property=value&group_by=page") := by
  have key : ∀ cmd : Command, (GetAnalysis env c cmd).sent =
      (if env.newRequestError "GET"
          (baseUrl ++ c.ProjectId ++ "/queries/" ++ cmd.Type_ ++ "?event_collection=" ++
            cmd.EventCollection ++ "&target_property=" ++ cmd.TargetProperty ++
            "&group_by=" ++ cmd.GroupBy ++ "&api_key=" ++ c.ApiKey) = none
        then
          [{ method := "GET"
             url := baseUrl ++ c.ProjectId ++ "/queries/" ++ cmd.Type_ ++
               "?event_collection=" ++ cmd.EventCollection ++ "&target_property=" ++
               cmd.TargetProperty ++ "&group_by=" ++ cmd.GroupBy ++ "&api_key=" ++ c.ApiKey
             body := none, contentLength := 0, header := [] }]
        else []) := by
    intro cmd
    rw [GetAnalysis_sent, doRequest_sent, queryPath_eq]
    simp only [makeRequest, NewRequest, if_true, String.append_assoc]
    cases h : env.newRequestError "GET"
          (baseUrl ++ (c.ProjectId ++ ("/queries/" ++ (cmd.Type_ ++ ("?event_collection=" ++
            (cmd.EventCollection ++ ("&target_property=" ++ (cmd.TargetProperty ++
            ("&group_by=" ++ (cmd.GroupBy ++ ("&api_key=" ++ c.ApiKey)))))))))))
    · simp
    · simp
  refine ⟨key cmd, ?_, ?_, ?_⟩
  · intro req hreq
    rw [key cmd] at hreq
    split at hreq
    · simp at hreq
      subst hreq
      exact ⟨rfl, rfl⟩
    · simp at hreq
  · intro f
    rw [key, key]
  · intro f
    rw [queryPath_eq]
    dsimp only
    decide

/-- C5 (as stated, refuted). For the nil event the request `AddEvent` issues
has the bare path as URL, no body and no `Authorization` header. -/
theorem addEvent_nil_event_request :
    (AddEvent (answering 200 "") sampleClient "purchases" none).sent =
      [{ method := "POST", url := "/events/purchases", body := none, contentLength := 0,
         header := [] }] ∧
    "/events/purchases" ≠ baseUrl ++ sampleClient.ProjectId ++ "/events/" ++ "purchases" ∧
    ({ method := "POST", url := "/events/purchases", body := none, contentLength := 0,
       header := [] } : Request).headerValues "Authorization" ≠ [sampleClient.WriteKey] ∧
    ({ method := "POST", url := "/events/purchases", body := none, contentLength := 0,
       header := [] } : Request).body ≠ some "null" :=
  ⟨rfl, by decide, by decide, by decide⟩

/-- C5 (amended). For every client, every collection name and every non-nil
event that `json.Marshal` encodes to `body`, the request `AddEvent` issues is
a POST to the base URL, the project, `/events/` and the collection, whose body
is `body`, with `Authorization` equal to the write key, `Content-Type` equal
to `application/json` and content length equal to the length of `body`. No
request is issued when `http.NewRequest` refuses the URL. -/
theorem addEvent_request {F : Type} (env : Env F) (c : Client) (collection : String)
    (event : Event) (body : String) (hbody : event.marshalJSON = .ok body) :
    (AddEvent env c collection (some event)).sent =
      (if env.newRequestError "POST" (baseUrl ++ c.ProjectId ++ "/events/" ++ collection)
          = none
        then
          [{ method := "POST"
             url := baseUrl ++ c.ProjectId ++ "/events/" ++ collection
             body := some body
             contentLength := body.utf8ByteSize
             header := [("Content-Type", "application/json"),
                        ("Authorization", c.WriteKey)] }]
        else []) ∧
    (∀ req ∈ (AddEvent env c collection (some event)).sent,
      req.method = "POST" ∧
      req.url = baseUrl ++ c.ProjectId ++ "/events/" ++ collection ∧
      req.body = some body ∧
      req.headerValues "Authorization" = [c.WriteKey] ∧
      req.headerValues "Content-Type" = ["application/json"] ∧
      req.contentLength = body.utf8ByteSize) := by
  have key : (AddEvent env c collection (some event)).sent =
      (if env.newRequestError "POST" (baseUrl ++ c.ProjectId ++ "/events/" ++ collection)
          = none
        then
          [{ method := "POST"
             url := baseUrl ++ c.ProjectId ++ "/events/" ++ collection
             body := some body
             contentLength := body.utf8ByteSize
             header := [("Content-Type", "application/json"),
                        ("Authorization", c.WriteKey)] }]
        else []) := by
    rw [AddEvent_sent, doRequest_sent]
    simp only [makeRequest, Option.map, Marshal, encodeElem, hbody, NewRequest,
      String.append_assoc]
    cases h : env.newRequestError "POST"
      (baseUrl ++ (c.ProjectId ++ ("/events/" ++ collection)))
    · simp [Request.addHeader]
    · simp
  refine ⟨key, ?_⟩
  intro req hreq
  rw [key] at hreq
  split at hreq
  · simp at hreq
    subst hreq
    refine ⟨rfl, rfl, rfl, ?_, ?_, rfl⟩
    · simp [Request.headerValues]
    · simp [Request.headerValues]
  · simp at hreq

theorem addEvent_request_witness :
    sampleEvent.marshalJSON = .ok "\x7b\"n\":1\x7d" ∧
    (AddEvent (answering 200 "") sampleClient "purchases" (some sampleEvent)).sent =
      [{ method := "POST"
         url := "https://api.keen.io/3.0/projects/p1/events/purchases"
         body := some "\x7b\"n\":1\x7d"
         contentLength := 7
         header := [("Content-Type", "application/json"), ("Authorization", "write-key")] }] :=
  ⟨rfl, (addEvent_request (answering 200 "") sampleClient "purchases" sampleEvent
    "\x7b\"n\":1\x7d" rfl).1⟩

/-- C8. When the payload cannot be serialized to JSON, `AddEvent` and
`AddEvents` return the encoding error and pass no request to the transport. -/
theorem addEvent_addEvents_encoding_error {F : Type} (env : Env F) (c : Client) :
    (∀ (collection : String) (event : Event) (msg : String),
      event.marshalJSON = .error msg →
      (AddEvent env c collection (some event)).sent = [] ∧
      (AddEvent env c collection (some event)).result = .error (.marshal msg)) ∧
    (∀ (events : EventBatch) (err : Error),
      Marshal env (.batch events) = .error err →
      (AddEvents env c events).sent = [] ∧
      (AddEvents env c events).result = .error err) := by
  constructor
  · intro collection event msg h
    have hm : makeRequest env c "POST" ("/events/" ++ collection)
        (some (Payload.event event)) = .error (.marshal msg) := by
      simp [makeRequest, Marshal, encodeElem, h]
    constructor
    · rw [AddEvent_sent, doRequest_sent]
      simp only [Option.map, hm]
    · apply AddEvent_result_error
      simp only [Option.map, doRequest, hm]
  · intro events err h
    have hm : makeRequest env c "POST" "/events" (some (Payload.batch events))
        = .error err := by
      simp [makeRequest, h]
    constructor
    · rw [AddEvents_sent, doRequest_sent]
      simp only [hm]
    · apply AddEvents_result_error
      simp only [doRequest, hm]

theorem addEvent_addEvents_encoding_error_witness :
    ((AddEvent (answering 200 "") sampleClient "purchases" (some channelEvent)).sent = [] ∧
     (AddEvent (answering 200 "") sampleClient "purchases" (some channelEvent)).result
       = .error (.marshal "json: unsupported type: chan int")) ∧
    ((AddEvents (answering 200 "") sampleClient
        (some [("signups", some [some sampleEvent, some channelEvent])])).sent = [] ∧
     (AddEvents (answering 200 "") sampleClient
        (some [("signups", some [some sampleEvent, some channelEvent])])).result
       = .error (.marshal "json: unsupported type: chan int")) :=
  ⟨(addEvent_addEvents_encoding_error (answering 200 "") sampleClient).1 "purchases"
      channelEvent "json: unsupported type: chan int" rfl,
   (addEvent_addEvents_encoding_error (answering 200 "") sampleClient).2
      (some [("signups", some [some sampleEvent, some channelEvent])])
      (.marshal "json: unsupported type: chan int") rfl⟩

/-! ## The body of a batch -/

theorem commaSeparated_cons_append (p a : String) (as : List String) :
    commaSeparated ((p ++ a) :: as) = p ++ commaSeparated (a :: as) := by
  cases as with
  | nil => rfl
  | cons b bs => simp only [commaSeparated, String.append_assoc]

theorem intercalate_go_eq (l : List String) :
    ∀ acc : String, String.intercalate.go acc "," l = commaSeparated (acc :: l) := by
  induction l with
  | nil => intro acc; rfl
  | cons a as ih =>
    intro acc
    rw [String.intercalate.go, ih, commaSeparated_cons_append]
    simp only [commaSeparated]

theorem intercalate_eq_commaSeparated (l : List String) :
    ",".intercalate l = commaSeparated l := by
  cases l with
  | nil => rfl
  | cons a as => exact intercalate_go_eq as a

theorem encodeElems_spec (es : List (Option Event))
    (h : ∀ ev ∈ es, ∀ x, ev = some x → ∃ t, x.marshalJSON = .ok t) :
    ∃ encs, encodeElems es = .ok encs ∧ List.Forall₂ EncodesTo es encs := by
  induction es with
  | nil => exact ⟨[], rfl, .nil⟩
  | cons e es ih =>
    obtain ⟨encs, h1, h2⟩ := ih (fun ev hev => h ev (List.mem_cons_of_mem _ hev))
    have he : ∃ t, encodeElem e = .ok t ∧ EncodesTo e t := by
      cases e with
      | none => exact ⟨"null", rfl, rfl⟩
      | some x =>
        obtain ⟨t, ht⟩ := h (some x) (List.mem_cons_self _ _) x rfl
        exact ⟨t, by simp [encodeElem, ht], ht⟩
    obtain ⟨t, ht, hspec⟩ := he
    refine ⟨t :: encs, ?_, .cons hspec h2⟩
    rw [encodeElems, ht]
    simp only
    rw [h1]

theorem encodeMembers_spec {F : Type} (env : Env F) (ms : List (String × List (Option Event)))
    (hser : ∀ m ∈ ms, ∀ ev ∈ m.2, ∀ x, ev = some x → ∃ t, x.marshalJSON = .ok t)
    (hquote : ∀ m ∈ ms, IsStringLit (env.quote m.1) m.1) :
    ∃ pairs, encodeMembers env (ms.map (fun e => (e.1, some e.2))) = .ok pairs ∧
      List.Forall₂ IsMemberOf ms (pairs.map (fun m => m.1 ++ ":" ++ m.2)) := by
  induction ms with
  | nil => exact ⟨[], rfl, .nil⟩
  | cons m ms ih =>
    obtain ⟨k, es⟩ := m
    obtain ⟨pairs, h1, h2⟩ := ih (fun m hm => hser m (List.mem_cons_of_mem _ hm))
      (fun m hm => hquote m (List.mem_cons_of_mem _ hm))
    obtain ⟨encs, henc, hspec⟩ := encodeElems_spec es (hser (k, es) (List.mem_cons_self _ _))
    have hslice : encodeSlice (some es) = .ok (renderArray encs) := by
      simp only [encodeSlice, henc]
    refine ⟨(env.quote k, renderArray encs) :: pairs, ?_, ?_⟩
    · rw [List.map_cons, encodeMembers, hslice]
      simp only [h1]
    · rw [List.map_cons]
      refine .cons ⟨env.quote k, renderArray encs, hquote (k, es) (List.mem_cons_self _ _),
        ⟨encs, hspec, ?_⟩, rfl⟩ h2
      rw [renderArray, intercalate_eq_commaSeparated]

/-- C7 (as stated, refuted). For the batch that maps `signups` to the nil
slice, the body `AddEvents` sends is `{"signups":null}`: the value under the
key is `null`, and the body is not an object holding a JSON array under the
key. -/
theorem addEvents_nil_slice_body :
    (AddEvents (answering 200 "") sampleClient (some [("signups", none)])).sent =
      [{ method := "POST"
         url := "https://api.keen.io/3.0/projects/p1/events"
         body := some "\x7b\"signups\":null\x7d"
         contentLength := 16
         header := [("Content-Type", "application/json"), ("Authorization", "write-key")] }] ∧
    parseJSON "\x7b\"signups\":null\x7d" = .ok (.object [("signups", .null)]) ∧
    ¬ IsBatchObject [("signups", [])] "\x7b\"signups\":null\x7d" := by
  refine ⟨rfl, rfl, ?_⟩
  rintro ⟨members, texts, hperm, hall, hbody⟩
  have hmem : members = [("signups", [])] := List.perm_singleton.1 hperm
  subst hmem
  cases hall with
  | cons hm hrest =>
    cases hrest
    obtain ⟨key, arr, _, ⟨encs, henc, harr⟩, htext⟩ := hm
    cases henc
    subst harr htext
    have h := congrArg (fun s : String => s.data.reverse.take 2) hbody
    simp [commaSeparated, String.data_append] at h

/-- C7 (amended). For every client and every non-nil batch in which every
collection has a non-nil sequence of JSON-serializable events, the request
`AddEvents` issues is a POST to the base URL, the project and `/events`, with
`Authorization` equal to the write key and `Content-Type` `application/json`,
whose body is a JSON object with one member for each collection of the batch,
the key being the collection name and the value the array of the encodings of
that collection's events in the order of the input sequence. The string
encoder of `encoding/json` is taken to write each collection name as a JSON
string literal that denotes it. -/
theorem addEvents_request {F : Type} (env : Env F) (c : Client)
    (batch : List (String × List (Option Event)))
    (hser : ∀ e ∈ batch, ∀ ev ∈ e.2, ∀ x, ev = some x → ∃ t, x.marshalJSON = .ok t)
    (hquote : ∀ e ∈ batch, IsStringLit (env.quote e.1) e.1) :
    ∃ body : String,
      Marshal env (.batch (some (batch.map (fun e => (e.1, some e.2))))) = .ok body ∧
      IsBatchObject batch body ∧
      (AddEvents env c (some (batch.map (fun e => (e.1, some e.2))))).sent =
        (if env.newRequestError "POST" (baseUrl ++ c.ProjectId ++ "/events") = none
          then
            [{ method := "POST"
               url := baseUrl ++ c.ProjectId ++ "/events"
               body := some body
               contentLength := body.utf8ByteSize
               header := [("Content-Type", "application/json"),
                          ("Authorization", c.WriteKey)] }]
          else []) := by
  have hperm := List.perm_insertionSort (fun a b : String × List (Option Event) => a.1 ≤ b.1)
    batch
  have hmap := List.map_insertionSort (fun a b : String × List (Option Event) => a.1 ≤ b.1)
    (fun a b : String × EventSlice => a.1 ≤ b.1)
    (fun e : String × List (Option Event) => ((e.1, some e.2) : String × EventSlice)) batch
    (fun a _ b _ => Iff.rfl)
  generalize List.insertionSort (fun a b : String × List (Option Event) => a.1 ≤ b.1)
    batch = S at hperm hmap
  obtain ⟨pairs, hpairs, hspec⟩ := encodeMembers_spec env S
    (fun m hm => hser m ((hperm.mem_iff).1 hm)) (fun m hm => hquote m ((hperm.mem_iff).1 hm))
  have hmarshal : Marshal env (.batch (some (batch.map (fun e => (e.1, some e.2))))) =
      .ok (renderObject pairs) := by
    simp only [Marshal, encodeBatch, ← hmap, hpairs]
  refine ⟨_, hmarshal, ⟨S, _, hperm, hspec, ?_⟩, ?_⟩
  · rw [renderObject, intercalate_eq_commaSeparated]
  · rw [AddEvents_sent, doRequest_sent]
    simp only [makeRequest, hmarshal, NewRequest]
    cases h : env.newRequestError "POST" (baseUrl ++ c.ProjectId ++ "/events")
    · simp [Request.addHeader]
    · simp

theorem isStringLit_signups : IsStringLit "\"signups\"" "signups" :=
  ⟨['s', 'i', 'g', 'n', 'u', 'p', 's'], rfl,
    .plain 's' _ _ (by decide) (by decide) (by decide)
    (.plain 'i' _ _ (by decide) (by decide) (by decide)
    (.plain 'g' _ _ (by decide) (by decide) (by decide)
    (.plain 'n' _ _ (by decide) (by decide) (by decide)
    (.plain 'u' _ _ (by decide) (by decide) (by decide)
    (.plain 'p' _ _ (by decide) (by decide) (by decide)
    (.plain 's' _ _ (by decide) (by decide) (by decide) .done))))))⟩

theorem isStringLit_purchases : IsStringLit "\"purchases\"" "purchases" :=
  ⟨['p', 'u', 'r', 'c', 'h', 'a', 's', 'e', 's'], rfl,
    .plain 'p' _ _ (by decide) (by decide) (by decide)
    (.plain 'u' _ _ (by decide) (by decide) (by decide)
    (.plain 'r' _ _ (by decide) (by decide) (by decide)
    (.plain 'c' _ _ (by decide) (by decide) (by decide)
    (.plain 'h' _ _ (by decide) (by decide) (by decide)
    (.plain 'a' _ _ (by decide) (by decide) (by decide)
    (.plain 's' _ _ (by decide) (by decide) (by decide)
    (.plain 'e' _ _ (by decide) (by decide) (by decide)
    (.plain 's' _ _ (by decide) (by decide) (by decide) .done))))))))⟩

theorem sampleBatch_serializable :
    ∀ e ∈ sampleBatch, ∀ ev ∈ e.2, ∀ x, ev = some x → ∃ t, x.marshalJSON = .ok t := by
  intro e he ev hev x hx
  simp only [sampleBatch, List.mem_cons, List.mem_singleton, List.not_mem_nil, or_false] at he
  rcases he with rfl | rfl
  · simp only [List.mem_cons, List.mem_singleton, List.not_mem_nil, or_false] at hev
    rcases hev with rfl | rfl | rfl
    · cases hx
      exact ⟨_, rfl⟩
    · cases hx
      exact ⟨_, rfl⟩
    · cases hx
  · simp at hev

theorem sampleBatch_quoted :
    ∀ e ∈ sampleBatch, IsStringLit ((answering 200 "").quote e.1) e.1 := by
  intro e he
  simp only [sampleBatch, List.mem_cons, List.mem_singleton, List.not_mem_nil, or_false] at he
  rcases he with rfl | rfl
  · exact isStringLit_signups
  · exact isStringLit_purchases

theorem addEvents_request_witness :
    (∀ e ∈ sampleBatch, ∀ ev ∈ e.2, ∀ x, ev = some x → ∃ t, x.marshalJSON = .ok t) ∧
    (∀ e ∈ sampleBatch, IsStringLit ((answering 200 "").quote e.1) e.1) ∧
    IsBatchObject sampleBatch sampleBatchBody ∧
    (AddEvents (answering 200 "") sampleClient
        (some [("signups", some [some sampleEvent, some secondEvent, none]),
               ("purchases", some [])])).sent =
      [{ method := "POST"
         url := "https://api.keen.io/3.0/projects/p1/events"
         body := some "\x7b\"purchases\":[],\"signups\":[\x7b\"n\":1\x7d,\x7b\"n\":2\x7d,null]\x7d"
         contentLength := 49
         header := [("Content-Type", "application/json"), ("Authorization", "write-key")] }] ∧
    parseJSON sampleBatchBody =
      .ok (.object
        [("purchases", .array []),
         ("signups", .array [.object [("n", .number "1")], .object [("n", .number "2")],
            .null])]) := by
  obtain ⟨body, hmarshal, hobject, hsent⟩ :=
    addEvents_request (answering 200 "") sampleClient sampleBatch sampleBatch_serializable
      sampleBatch_quoted
  have hbody : body = sampleBatchBody := by
    have h : Marshal (answering 200 "")
        (.batch (some (sampleBatch.map (fun e => (e.1, some e.2))))) = .ok sampleBatchBody := by
      have hle : ¬ (("signups" : String) ≤ "purchases") := by
        rw [String.le_iff_toList_le]
        decide
      simp only [Marshal, encodeBatch, sampleBatch, List.map_cons, List.map_nil,
        List.insertionSort, List.orderedInsert, if_neg hle]
      rfl
    rw [h] at hmarshal
    exact (Except.ok.inj hmarshal).symm
  subst hbody
  have hsent1 : (AddEvents (answering 200 "") sampleClient
      (some [("signups", some [some sampleEvent, some secondEvent, none]),
             ("purchases", some [])])).sent = _ := hsent
  refine ⟨sampleBatch_serializable, sampleBatch_quoted, hobject, hsent1.trans ?_, rfl⟩
  rw [if_pos (show (answering 200 "").newRequestError "POST"
    (baseUrl ++ sampleClient.ProjectId ++ "/events") = none from rfl)]
  rfl

/-! ## Reading literals in front of more input -/

theorem takeWhile_isDigit_append (l rest : List Char) (c : Char) (hc : isDigit c = false) :
    (l ++ c :: rest).takeWhile isDigit = l.takeWhile isDigit := by
  induction l with
  | nil => simp [List.takeWhile_cons, hc]
  | cons a l ih =>
    by_cases ha : isDigit a = true
    · simp [List.takeWhile_cons, ha, ih]
    · simp [List.takeWhile_cons, ha]

theorem dropWhile_isDigit_append (l rest : List Char) (c : Char) (hc : isDigit c = false) :
    (l ++ c :: rest).dropWhile isDigit = l.dropWhile isDigit ++ c :: rest := by
  induction l with
  | nil => simp [List.dropWhile_cons, hc]
  | cons a l ih =>
    by_cases ha : isDigit a = true
    · simp [List.dropWhile_cons, ha, ih]
    · simp [List.dropWhile_cons, ha]

theorem scanExp_append (acc l x y rest : List Char) (c : Char) (hc : IsDelimiter c)
    (h : scanExp acc l = .ok (x, y)) :
    scanExp acc (l ++ c :: rest) = .ok (x, y ++ c :: rest) := by
  have hd : isDigit c = false := by rcases hc with rfl | rfl | rfl <;> decide
  cases l with
  | nil =>
    simp only [scanExp] at h
    simp only [Except.ok.injEq, Prod.mk.injEq] at h
    obtain ⟨rfl, rfl⟩ := h
    have : ¬ (c = 'e' ∨ c = 'E') := by rcases hc with rfl | rfl | rfl <;> decide
    simp [scanExp, this]
  | cons a l =>
    simp only [List.cons_append, scanExp] at h ⊢
    by_cases ha : a = 'e' ∨ a = 'E'
    · simp only [ha, if_true] at h ⊢
      cases l with
      | nil => simp at h
      | cons b l =>
        simp only [List.cons_append] at h ⊢
        by_cases hb : b = '+' ∨ b = '-'
        · simp only [hb, if_true, List.length_singleton, List.drop_succ_cons, List.drop_zero]
            at h ⊢
          rw [takeWhile_isDigit_append l rest c hd, dropWhile_isDigit_append l rest c hd]
          split at h
          · split at h <;> simp at h
          · rename_i hne
            simp only [hne, Bool.false_eq_true, if_false]
            simp only [Except.ok.injEq, Prod.mk.injEq] at h ⊢
            exact ⟨h.1, by rw [h.2]⟩
        · simp only [hb, if_false, List.length_nil, List.drop_zero] at h ⊢
          have h1 := takeWhile_isDigit_append (b :: l) rest c hd
          have h2 := dropWhile_isDigit_append (b :: l) rest c hd
          simp only [List.cons_append] at h1 h2
          rw [h1, h2]
          split at h
          · split at h <;> simp at h
          · rename_i hne
            simp only [hne, Bool.false_eq_true, if_false]
            simp only [Except.ok.injEq, Prod.mk.injEq] at h ⊢
            exact ⟨h.1, by rw [h.2]⟩
    · simp only [ha, if_false] at h ⊢
      simp only [Except.ok.injEq, Prod.mk.injEq] at h ⊢
      exact ⟨h.1, by rw [← h.2]; rfl⟩

theorem scanFrac_append (acc l x y rest : List Char) (c : Char) (hc : IsDelimiter c)
    (h : scanFrac acc l = .ok (x, y)) :
    scanFrac acc (l ++ c :: rest) = .ok (x, y ++ c :: rest) := by
  have hd : isDigit c = false := by rcases hc with rfl | rfl | rfl <;> decide
  cases l with
  | nil =>
    simp only [scanFrac] at h
    simp only [Except.ok.injEq, Prod.mk.injEq] at h
    obtain ⟨rfl, rfl⟩ := h
    have h1 : ¬ (c = '.') := by rcases hc with rfl | rfl | rfl <;> decide
    simp only [List.nil_append, scanFrac, h1, if_false]
    exact scanExp_append _ [] _ [] rest c hc rfl
  | cons a l =>
    simp only [List.cons_append, scanFrac] at h ⊢
    by_cases ha : a = '.'
    · simp only [ha, if_true] at h ⊢
      rw [takeWhile_isDigit_append l rest c hd, dropWhile_isDigit_append l rest c hd]
      split at h
      · split at h <;> simp at h
      · rename_i hne
        simp only [hne, Bool.false_eq_true, if_false]
        exact scanExp_append _ _ x y rest c hc h
    · simp only [ha, if_false] at h ⊢
      exact scanExp_append acc (a :: l) x y rest c hc h

theorem scanInt_append (acc l x y rest : List Char) (c : Char) (hc : IsDelimiter c)
    (h : scanInt acc l = .ok (x, y)) :
    scanInt acc (l ++ c :: rest) = .ok (x, y ++ c :: rest) := by
  have hd : isDigit c = false := by rcases hc with rfl | rfl | rfl <;> decide
  cases l with
  | nil => simp [scanInt] at h
  | cons a l =>
    simp only [List.cons_append, scanInt] at h ⊢
    by_cases ha : a = '0'
    · simp only [ha, if_true] at h ⊢
      exact scanFrac_append _ _ x y rest c hc h
    · simp only [ha, if_false] at h ⊢
      by_cases hda : isDigit a = true
      · simp only [hda, if_true] at h ⊢
        rw [takeWhile_isDigit_append l rest c hd, dropWhile_isDigit_append l rest c hd]
        exact scanFrac_append _ _ x y rest c hc h
      · simp [hda] at h

/-- A number literal is read the same way in front of a delimiter. -/
theorem scanNumber_append (l x y rest : List Char) (c : Char) (hc : IsDelimiter c)
    (h : scanNumber l = .ok (x, y)) :
    scanNumber (l ++ c :: rest) = .ok (x, y ++ c :: rest) := by
  cases l with
  | nil => simp [scanNumber] at h
  | cons a l =>
    simp only [List.cons_append, scanNumber] at h ⊢
    by_cases ha : a = '-'
    · simp only [ha, if_true] at h ⊢
      exact scanInt_append _ _ x y rest c hc h
    · simp only [ha, if_false] at h ⊢
      exact scanInt_append [] (a :: l) x y rest c hc h

theorem scanExp_text (acc l x y : List Char) (h : scanExp acc l = .ok (x, y)) :
    x ++ y = acc ++ l := by
  cases l with
  | nil =>
    simp only [scanExp, Except.ok.injEq, Prod.mk.injEq] at h
    obtain ⟨rfl, rfl⟩ := h
    rfl
  | cons a l =>
    simp only [scanExp] at h
    split at h
    · split at h
      · split at h <;> simp at h
      · simp only [Except.ok.injEq, Prod.mk.injEq] at h
        obtain ⟨rfl, rfl⟩ := h
        cases l with
        | nil => simp
        | cons b l =>
          by_cases hb : b = '+' ∨ b = '-'
          · simp [hb, List.takeWhile_append_dropWhile]
          · simp [hb, List.takeWhile_append_dropWhile]
    · simp only [Except.ok.injEq, Prod.mk.injEq] at h
      obtain ⟨rfl, rfl⟩ := h
      rfl

theorem scanFrac_text (acc l x y : List Char) (h : scanFrac acc l = .ok (x, y)) :
    x ++ y = acc ++ l := by
  cases l with
  | nil =>
    simp only [scanFrac, Except.ok.injEq, Prod.mk.injEq] at h
    obtain ⟨rfl, rfl⟩ := h
    rfl
  | cons a l =>
    simp only [scanFrac] at h
    split at h
    · split at h
      · split at h <;> simp at h
      · rename_i ha _
        have := scanExp_text _ _ x y h
        rw [this, ha]
        simp [List.takeWhile_append_dropWhile]
    · exact scanExp_text _ _ x y h

theorem scanInt_text (acc l x y : List Char) (h : scanInt acc l = .ok (x, y)) :
    x ++ y = acc ++ l := by
  cases l with
  | nil => simp [scanInt] at h
  | cons a l =>
    simp only [scanInt] at h
    split at h
    · have := scanFrac_text _ _ x y h
      rw [this]
      simp
    · split at h
      · have := scanFrac_text _ _ x y h
        rw [this]
        simp [List.takeWhile_append_dropWhile]
      · simp at h

/-- The text a number literal is read as is the text consumed. -/
theorem scanNumber_text (l x y : List Char) (h : scanNumber l = .ok (x, y)) :
    x ++ y = l := by
  cases l with
  | nil => simp [scanNumber] at h
  | cons a l =>
    simp only [scanNumber] at h
    split at h
    · rename_i ha
      have := scanInt_text _ _ x y h
      rw [this, ha]
      rfl
    · have := scanInt_text _ _ x y h
      rw [this]
      rfl

/-- A number literal starts with a minus sign or a digit. -/
theorem scanNumber_head (a : Char) (l x y : List Char)
    (h : scanNumber (a :: l) = .ok (x, y)) : a = '-' ∨ isDigit a = true := by
  simp only [scanNumber] at h
  by_cases ha : a = '-'
  · exact Or.inl ha
  · right
    simp only [ha, if_false, scanInt] at h
    by_cases h0 : a = '0'
    · rw [h0]; decide
    · simp only [h0, if_false] at h
      by_cases hd : isDigit a = true
      · exact hd
      · simp [hd] at h

theorem consItem_ok (i : StrItem) (r : Except DecodeError (List StrItem × List Char))
    (items : List StrItem) (y : List Char) (h : consItem i r = .ok (items, y)) :
    ∃ items1, r = .ok (items1, y) ∧ items = i :: items1 := by
  cases r with
  | error e => simp [consItem] at h
  | ok p =>
    obtain ⟨is, rest⟩ := p
    simp only [consItem, Except.ok.injEq, Prod.mk.injEq] at h
    exact ⟨is, by rw [h.2], h.1.symm⟩

theorem readItems_append_aux (ext : List Char) :
    ∀ (n : Nat) (l : List Char), l.length ≤ n → ∀ (items : List StrItem) (y : List Char),
      readItems l = .ok (items, y) → readItems (l ++ ext) = .ok (items, y ++ ext) := by
  intro n
  induction n with
  | zero =>
    intro l hl items y h
    have : l = [] := List.length_eq_zero.1 (Nat.le_zero.1 hl)
    subst this
    simp [readItems] at h
  | succ n ih =>
    intro l hl items y h
    cases l with
    | nil => simp [readItems] at h
    | cons c rest =>
      simp only [List.length_cons] at hl
      rw [List.cons_append, readItems.eq_def]
      rw [readItems.eq_def] at h
      simp only at h ⊢
      by_cases hq : c = '"'
      · simp only [hq, if_true, Except.ok.injEq, Prod.mk.injEq] at h ⊢
        exact ⟨h.1, by rw [h.2]⟩
      · simp only [hq, if_false] at h ⊢
        by_cases hb : c = '\\'
        · simp only [hb, if_true] at h ⊢
          cases rest with
          | nil => simp at h
          | cons e rest1 =>
            simp only [List.cons_append] at h ⊢
            simp only [List.length_cons] at hl
            by_cases hu : e = 'u'
            · simp only [hu, if_true] at h ⊢
              match rest1, h, hl with
              | [], h, _ => simp at h
              | [_], h, _ => simp only at h; split at h <;> cases h
              | [_, _], h, _ => simp only at h; split at h <;> cases h
              | [_, _, _], h, _ => simp only at h; split at h <;> cases h
              | a :: b :: c4 :: d :: rest2, h, hl =>
                simp only [List.cons_append] at h ⊢
                cases hh : hex4 a b c4 d with
                | none => simp [hh] at h
                | some v =>
                  simp only [hh] at h ⊢
                  obtain ⟨items1, h1, rfl⟩ := consItem_ok _ _ _ _ h
                  have hlen : rest2.length ≤ n := by
                    simp only [List.length_cons] at hl
                    omega
                  rw [ih rest2 hlen items1 y h1]
                  rfl
            · simp only [hu, if_false] at h ⊢
              cases hs : simpleEscape e with
              | none => simp [hs] at h
              | some ch =>
                simp only [hs] at h ⊢
                obtain ⟨items1, h1, rfl⟩ := consItem_ok _ _ _ _ h
                rw [ih rest1 (by omega) items1 y h1]
                rfl
        · simp only [hb, if_false] at h ⊢
          by_cases hc : c.toNat < 32
          · simp [hc] at h
          · simp only [hc, if_false] at h ⊢
            obtain ⟨items1, h1, rfl⟩ := consItem_ok _ _ _ _ h
            rw [ih rest (by omega) items1 y h1]
            rfl

/-- A string literal is read the same way in front of more input. -/
theorem readString_append (l : List Char) (v : String) (y ext : List Char)
    (h : readString l = .ok (v, y)) :
    readString (l ++ ext) = .ok (v, y ++ ext) := by
  unfold readString at h ⊢
  cases hr : readItems l with
  | error e => simp [hr] at h
  | ok p =>
    obtain ⟨items, rest⟩ := p
    simp only [hr, Except.ok.injEq, Prod.mk.injEq] at h
    rw [readItems_append_aux ext l.length l (Nat.le_refl _) items rest hr]
    simp only [Except.ok.injEq, Prod.mk.injEq]
    exact ⟨h.1, by rw [h.2]⟩

/-! ## The reader never runs out of fuel -/

theorem skipWS_length_le (cs : List Char) : (skipWS cs).length ≤ cs.length := by
  induction cs with
  | nil => simp [skipWS]
  | cons c cs ih =>
    rw [skipWS]
    split
    · simp only [List.length_cons]; omega
    · exact Nat.le_refl _

theorem skipWS_eq_cons (cs : List Char) (c : Char) (rest : List Char)
    (h : skipWS cs = c :: rest) : rest.length < cs.length := by
  have := skipWS_length_le cs
  rw [h] at this
  simp only [List.length_cons] at this
  omega

theorem readItems_length : ∀ (n : Nat) (l : List Char), l.length ≤ n →
    ∀ (items : List StrItem) (y : List Char),
      readItems l = .ok (items, y) → y.length < l.length := by
  intro n
  induction n with
  | zero =>
    intro l hl items y h
    have : l = [] := List.length_eq_zero.1 (Nat.le_zero.1 hl)
    subst this
    simp [readItems] at h
  | succ n ih =>
    intro l hl items y h
    cases l with
    | nil => simp [readItems] at h
    | cons c rest =>
      simp only [List.length_cons] at hl
      rw [readItems.eq_def] at h
      simp only at h
      by_cases hq : c = '"'
      · simp only [hq, if_true, Except.ok.injEq, Prod.mk.injEq] at h
        rw [← h.2]
        simp
      · simp only [hq, if_false] at h
        by_cases hb : c = '\\'
        · simp only [hb, if_true] at h
          cases rest with
          | nil => simp at h
          | cons e rest1 =>
            simp only [List.length_cons] at hl
            by_cases hu : e = 'u'
            · simp only [hu, if_true] at h
              match rest1, h, hl with
              | [], h, _ => simp at h
              | [_], h, _ => simp only at h; split at h <;> cases h
              | [_, _], h, _ => simp only at h; split at h <;> cases h
              | [_, _, _], h, _ => simp only at h; split at h <;> cases h
              | a :: b :: c4 :: d :: rest2, h, hl =>
                cases hh : hex4 a b c4 d with
                | none => simp [hh] at h
                | some v =>
                  simp only [hh] at h
                  obtain ⟨items1, h1, _⟩ := consItem_ok _ _ _ _ h
                  have hlen : rest2.length ≤ n := by
                    simp only [List.length_cons] at hl
                    omega
                  have := ih rest2 hlen items1 y h1
                  simp only [List.length_cons]
                  omega
            · simp only [hu, if_false] at h
              cases hs : simpleEscape e with
              | none => simp [hs] at h
              | some ch =>
                simp only [hs] at h
                obtain ⟨items1, h1, _⟩ := consItem_ok _ _ _ _ h
                have := ih rest1 (by omega) items1 y h1
                simp only [List.length_cons]
                omega
        · simp only [hb, if_false] at h
          by_cases hc : c.toNat < 32
          · simp [hc] at h
          · simp only [hc, if_false] at h
            obtain ⟨items1, h1, _⟩ := consItem_ok _ _ _ _ h
            have := ih rest (by omega) items1 y h1
            simp only [List.length_cons]
            omega

theorem readString_length (l : List Char) (v : String) (y : List Char)
    (h : readString l = .ok (v, y)) : y.length < l.length := by
  unfold readString at h
  cases hr : readItems l with
  | error e => simp [hr] at h
  | ok p =>
    obtain ⟨items, rest⟩ := p
    simp only [hr, Except.ok.injEq, Prod.mk.injEq] at h
    rw [← h.2]
    exact readItems_length l.length l (Nat.le_refl _) items rest hr

theorem scanNumber_length (l x y : List Char) (h : scanNumber l = .ok (x, y)) :
    y.length ≤ l.length := by
  have := scanNumber_text l x y h
  rw [← this]
  simp

theorem expectChars_length : ∀ (es cs rest : List Char),
    expectChars es cs = .ok rest → rest.length ≤ cs.length := by
  intro es
  induction es with
  | nil =>
    intro cs rest h
    simp only [expectChars, Except.ok.injEq] at h
    rw [h]
  | cons e es ih =>
    intro cs rest h
    cases cs with
    | nil => simp [expectChars] at h
    | cons c cs =>
      simp only [expectChars] at h
      split at h
      · have := ih cs rest h
        simp only [List.length_cons]
        omega
      · simp at h

theorem parse_length : ∀ f : Nat,
    (∀ d cs v rest, parseValue f d cs = .ok (v, rest) → rest.length ≤ cs.length) ∧
    (∀ d cs vs rest, parseElems f d cs = .ok (vs, rest) → rest.length ≤ cs.length) ∧
    (∀ d cs ms rest, parseMembers f d cs = .ok (ms, rest) → rest.length ≤ cs.length) := by
  intro f
  induction f with
  | zero =>
    refine ⟨?_, ?_, ?_⟩
    · intro d cs v rest h; simp [parseValue] at h
    · intro d cs v rest h; simp [parseElems] at h
    · intro d cs v rest h; simp [parseMembers] at h
  | succ f ih =>
    obtain ⟨ihV, ihE, ihM⟩ := ih
    refine ⟨?_, ?_, ?_⟩
    · intro d cs v rest h
      rw [parseValue] at h
      cases hsk : skipWS cs with
      | nil => simp [hsk] at h
      | cons c r0 =>
        have hr0 := skipWS_eq_cons cs c r0 hsk
        simp only [hsk] at h
        split at h
        · split at h
          · cases h
          · cases hsk1 : skipWS r0 with
            | nil => simp [hsk1] at h
            | cons c1 r1 =>
              have hr1 := skipWS_eq_cons r0 c1 r1 hsk1
              simp only [hsk1] at h
              split at h
              · simp only [Except.ok.injEq, Prod.mk.injEq] at h
                rw [← h.2]; omega
              · cases hm : parseMembers f (d + 1) (c1 :: r1) with
                | error e => simp [hm] at h
                | ok p =>
                  obtain ⟨ms, r2⟩ := p
                  simp only [hm, Except.ok.injEq, Prod.mk.injEq] at h
                  have := ihM _ _ _ _ hm
                  simp only [List.length_cons] at this
                  rw [← h.2]; omega
        · split at h
          · split at h
            · cases h
            · cases hsk1 : skipWS r0 with
              | nil => simp [hsk1] at h
              | cons c1 r1 =>
                have hr1 := skipWS_eq_cons r0 c1 r1 hsk1
                simp only [hsk1] at h
                split at h
                · simp only [Except.ok.injEq, Prod.mk.injEq] at h
                  rw [← h.2]; omega
                · cases hm : parseElems f (d + 1) (c1 :: r1) with
                  | error e => simp [hm] at h
                  | ok p =>
                    obtain ⟨ms, r2⟩ := p
                    simp only [hm, Except.ok.injEq, Prod.mk.injEq] at h
                    have := ihE _ _ _ _ hm
                    simp only [List.length_cons] at this
                    rw [← h.2]; omega
          · split at h
            · cases hm : readString r0 with
              | error e => simp [hm] at h
              | ok p =>
                obtain ⟨s, r2⟩ := p
                simp only [hm, Except.ok.injEq, Prod.mk.injEq] at h
                have := readString_length _ _ _ hm
                rw [← h.2]; omega
            · split at h
              · cases hm : expectChars ['r', 'u', 'e'] r0 with
                | error e => simp [hm] at h
                | ok r2 =>
                  simp only [hm, Except.ok.injEq, Prod.mk.injEq] at h
                  have := expectChars_length _ _ _ hm
                  rw [← h.2]; omega
              · split at h
                · cases hm : expectChars ['a', 'l', 's', 'e'] r0 with
                  | error e => simp [hm] at h
                  | ok r2 =>
                    simp only [hm, Except.ok.injEq, Prod.mk.injEq] at h
                    have := expectChars_length _ _ _ hm
                    rw [← h.2]; omega
                · split at h
                  · cases hm : expectChars ['u', 'l', 'l'] r0 with
                    | error e => simp [hm] at h
                    | ok r2 =>
                      simp only [hm, Except.ok.injEq, Prod.mk.injEq] at h
                      have := expectChars_length _ _ _ hm
                      rw [← h.2]; omega
                  · cases hm : scanNumber (c :: r0) with
                    | error e => simp [hm] at h
                    | ok p =>
                      obtain ⟨lit, r2⟩ := p
                      simp only [hm, Except.ok.injEq, Prod.mk.injEq] at h
                      have := scanNumber_length _ _ _ hm
                      simp only [List.length_cons] at this
                      rw [← h.2]; omega
    · intro d cs vs rest h
      rw [parseElems] at h
      cases hv : parseValue f d cs with
      | error e => simp [hv] at h
      | ok p =>
        obtain ⟨v, r0⟩ := p
        have hr0 := ihV _ _ _ _ hv
        simp only [hv] at h
        cases hsk : skipWS r0 with
        | nil => simp [hsk] at h
        | cons c r1 =>
          have hr1 := skipWS_eq_cons r0 c r1 hsk
          simp only [hsk] at h
          split at h
          · cases hm : parseElems f d r1 with
            | error e => simp [hm] at h
            | ok p =>
              obtain ⟨vs1, r2⟩ := p
              simp only [hm, Except.ok.injEq, Prod.mk.injEq] at h
              have := ihE _ _ _ _ hm
              rw [← h.2]; omega
          · split at h
            · simp only [Except.ok.injEq, Prod.mk.injEq] at h
              rw [← h.2]; omega
            · cases h
    · intro d cs ms rest h
      rw [parseMembers] at h
      cases hsk : skipWS cs with
      | nil => simp [hsk] at h
      | cons q r0 =>
        have hr0 := skipWS_eq_cons cs q r0 hsk
        simp only [hsk] at h
        split at h
        · cases hk : readString r0 with
          | error e => simp [hk] at h
          | ok p =>
            obtain ⟨key, r1⟩ := p
            have hr1 := readString_length _ _ _ hk
            simp only [hk] at h
            cases hsk1 : skipWS r1 with
            | nil => simp [hsk1] at h
            | cons c r2 =>
              have hr2 := skipWS_eq_cons r1 c r2 hsk1
              simp only [hsk1] at h
              split at h
              · cases hv : parseValue f d r2 with
                | error e => simp [hv] at h
                | ok p =>
                  obtain ⟨v, r3⟩ := p
                  have hr3 := ihV _ _ _ _ hv
                  simp only [hv] at h
                  cases hsk2 : skipWS r3 with
                  | nil => simp [hsk2] at h
                  | cons c1 r4 =>
                    have hr4 := skipWS_eq_cons r3 c1 r4 hsk2
                    simp only [hsk2] at h
                    split at h
                    · cases hm : parseMembers f d r4 with
                      | error e => simp [hm] at h
                      | ok p =>
                        obtain ⟨ms1, r5⟩ := p
                        simp only [hm, Except.ok.injEq, Prod.mk.injEq] at h
                        have := ihM _ _ _ _ hm
                        rw [← h.2]; omega
                    · split at h
                      · simp only [Except.ok.injEq, Prod.mk.injEq] at h
                        rw [← h.2]; omega
                      · cases h
              · cases h
        · cases h

theorem parse_fuel_stable : ∀ f : Nat,
    (∀ d cs, 2 * cs.length + 2 ≤ f → parseValue (f + 1) d cs = parseValue f d cs) ∧
    (∀ d cs, 2 * cs.length + 3 ≤ f → parseElems (f + 1) d cs = parseElems f d cs) ∧
    (∀ d cs, 2 * cs.length + 1 ≤ f → parseMembers (f + 1) d cs = parseMembers f d cs) := by
  intro f
  induction f with
  | zero =>
    refine ⟨?_, ?_, ?_⟩ <;> intro d cs h <;> omega
  | succ f ih =>
    obtain ⟨ihV, ihE, ihM⟩ := ih
    refine ⟨?_, ?_, ?_⟩
    · intro d cs hb
      rw [parseValue, parseValue]
      cases hsk : skipWS cs with
      | nil => rfl
      | cons c r0 =>
        have hr0 := skipWS_eq_cons cs c r0 hsk
        simp only
        cases hsk1 : skipWS r0 with
        | nil => rfl
        | cons c1 r1 =>
          have hr1 := skipWS_eq_cons r0 c1 r1 hsk1
          simp only
          rw [ihM (d + 1) (c1 :: r1) (by simp only [List.length_cons]; omega),
            ihE (d + 1) (c1 :: r1) (by simp only [List.length_cons]; omega)]
    · intro d cs hb
      rw [parseElems, parseElems, ihV d cs (by omega)]
      cases hv : parseValue f d cs with
      | error e => rfl
      | ok p =>
        obtain ⟨v, r0⟩ := p
        have hr0 := (parse_length f).1 _ _ _ _ hv
        simp only
        cases hsk : skipWS r0 with
        | nil => rfl
        | cons c r1 =>
          have hr1 := skipWS_eq_cons r0 c r1 hsk
          simp only
          rw [ihE d r1 (by omega)]
    · intro d cs hb
      rw [parseMembers, parseMembers]
      cases hsk : skipWS cs with
      | nil => rfl
      | cons q r0 =>
        have hr0 := skipWS_eq_cons cs q r0 hsk
        simp only
        cases hk : readString r0 with
        | error e => rfl
        | ok p =>
          obtain ⟨key, r1⟩ := p
          have hr1 := readString_length _ _ _ hk
          simp only
          cases hsk1 : skipWS r1 with
          | nil => rfl
          | cons c r2 =>
            have hr2 := skipWS_eq_cons r1 c r2 hsk1
            simp only
            rw [ihV d r2 (by omega)]
            cases hv : parseValue f d r2 with
            | error e => rfl
            | ok p =>
              obtain ⟨v, r3⟩ := p
              have hr3 := (parse_length f).1 _ _ _ _ hv
              simp only
              cases hsk2 : skipWS r3 with
              | nil => rfl
              | cons c1 r4 =>
                have hr4 := skipWS_eq_cons r3 c1 r4 hsk2
                simp only
                rw [ihM d r4 (by omega)]

/-- More fuel than `parseJSON` gives the reader does not change what it
reads: the reader never runs out of fuel there. -/
theorem parseValue_fuel (d : Nat) (cs : List Char) (extra : Nat) :
    parseValue (2 * cs.length + 2 + extra) d cs = parseValue (2 * cs.length + 2) d cs := by
  induction extra with
  | zero => rfl
  | succ n ih =>
    rw [← ih, ← Nat.add_assoc]
    exact (parse_fuel_stable _).1 d cs (by omega)

/-! ## The reader on literals of the JSON grammar -/

/-! ## The reader on the literals of the JSON grammar -/

theorem isDigit_of_mem_decimalDigits (c : Char) (h : c ∈ decimalDigits) :
    isDigit c = true := by
  simp only [decimalDigits, List.mem_cons, List.mem_singleton, List.not_mem_nil, or_false] at h
  rcases h with h | h | h | h | h | h | h | h | h | h <;> subst h <;> decide

theorem takeWhile_digits (ds rest : List Char) (hds : ∀ c ∈ ds, c ∈ decimalDigits)
    (hrest : ∀ c r, rest = c :: r → isDigit c = false) :
    (ds ++ rest).takeWhile isDigit = ds ∧ (ds ++ rest).dropWhile isDigit = rest := by
  induction ds with
  | nil =>
    cases rest with
    | nil => simp
    | cons c r =>
      have := hrest c r rfl
      simp [List.takeWhile_cons, List.dropWhile_cons, this]
  | cons d ds ih =>
    have hd := isDigit_of_mem_decimalDigits d (hds d (List.mem_cons_self _ _))
    obtain ⟨h1, h2⟩ := ih (fun c hc => hds c (List.mem_cons_of_mem _ hc))
    simp [List.takeWhile_cons, List.dropWhile_cons, hd, h1, h2]

theorem scanExp_of_grammar (acc exp : List Char) (h : IsExpPart exp) :
    scanExp acc exp = .ok (acc ++ exp, []) := by
  rcases h with rfl | ⟨e, sign, ds, rfl, he, hsign, hne, hds⟩
  · simp [scanExp]
  · obtain ⟨h1, h2⟩ := takeWhile_digits ds [] hds (by intro c r h; cases h)
    simp only [List.append_nil] at h1 h2
    cases ds with
    | nil => exact absurd rfl hne
    | cons d ds =>
      have hd := isDigit_of_mem_decimalDigits d (hds d (List.mem_cons_self _ _))
      have hdp : ¬ (d = '+' ∨ d = '-') := by
        rintro (rfl | rfl) <;> revert hd <;> decide
      simp only [scanExp, he, if_true]
      rcases hsign with rfl | rfl | rfl
      · simp only [List.nil_append, hdp, if_false, List.length_nil, List.drop_zero, h1, h2]
        simp
      · simp only [List.singleton_append, true_or, if_true, List.length_singleton,
          List.drop_succ_cons, List.drop_zero, h1, h2]
        simp
      · simp only [List.singleton_append, or_true, if_true, List.length_singleton,
          List.drop_succ_cons, List.drop_zero, h1, h2]
        simp

theorem expPart_head (exp : List Char) (h : IsExpPart exp) :
    ∀ c r, exp = c :: r → isDigit c = false ∧ c ≠ '.' := by
  intro c r hc
  rcases h with rfl | ⟨e, sign, ds, rfl, he, _, _⟩
  · cases hc
  · simp only [List.cons.injEq] at hc
    obtain ⟨rfl, _⟩ := hc
    rcases he with rfl | rfl <;> decide

theorem scanFrac_of_grammar (acc frac exp : List Char) (hf : IsFracPart frac)
    (he : IsExpPart exp) :
    scanFrac acc (frac ++ exp) = .ok (acc ++ (frac ++ exp), []) := by
  rcases hf with rfl | ⟨ds, rfl, hne, hds⟩
  · simp only [List.nil_append]
    cases exp with
    | nil => simp [scanFrac]
    | cons c r =>
      have hc := (expPart_head _ he c r rfl).2
      rw [scanFrac]
      simp only [hc, if_false]
      exact scanExp_of_grammar acc _ he
  · obtain ⟨h1, h2⟩ := takeWhile_digits ds exp hds
      (fun c r hc => (expPart_head _ he c r hc).1)
    rw [List.cons_append, scanFrac]
    simp only [if_true, h1, h2]
    cases ds with
    | nil => exact absurd rfl hne
    | cons d ds =>
      simp only [List.isEmpty_cons, Bool.false_eq_true, if_false]
      rw [scanExp_of_grammar _ _ he]
      simp

theorem fracExp_head (frac exp : List Char) (hf : IsFracPart frac) (he : IsExpPart exp) :
    ∀ c r, frac ++ exp = c :: r → isDigit c = false := by
  intro c r hc
  rcases hf with rfl | ⟨ds, rfl, _⟩
  · exact (expPart_head _ he c r hc).1
  · simp only [List.cons_append, List.cons.injEq] at hc
    obtain ⟨rfl, _⟩ := hc
    decide

theorem scanInt_of_grammar (acc int frac exp : List Char) (hi : IsIntPart int)
    (hf : IsFracPart frac) (he : IsExpPart exp) :
    scanInt acc (int ++ (frac ++ exp)) = .ok (acc ++ (int ++ (frac ++ exp)), []) := by
  rcases hi with rfl | ⟨d, ds, rfl, hd, hd0, hds⟩
  · rw [List.singleton_append, scanInt]
    simp only [if_true]
    rw [scanFrac_of_grammar _ _ _ hf he]
    simp
  · obtain ⟨h1, h2⟩ := takeWhile_digits ds (frac ++ exp) hds (fracExp_head _ _ hf he)
    rw [List.cons_append, scanInt]
    simp only [hd0, if_false, isDigit_of_mem_decimalDigits d hd, if_true, h1, h2]
    rw [scanFrac_of_grammar _ _ _ hf he]
    simp

/-- The reader reads a number literal of the grammar in full. -/
theorem scanNumber_of_grammar (cs : List Char) (h : IsNumberText cs) :
    scanNumber cs = .ok (cs, []) := by
  obtain ⟨sign, int, frac, exp, rfl, hsign, hi, hf, he⟩ := h
  rcases hsign with rfl | rfl
  · simp only [List.nil_append]
    have hne : ∃ a l, int ++ (frac ++ exp) = a :: l ∧ a ≠ '-' := by
      rcases hi with rfl | ⟨d, ds, rfl, hd, _, _⟩
      · exact ⟨'0', _, rfl, by decide⟩
      · refine ⟨d, _, rfl, ?_⟩
        have := isDigit_of_mem_decimalDigits d hd
        rintro rfl
        revert this
        decide
    obtain ⟨a, l, hal, ha⟩ := hne
    have := scanInt_of_grammar [] int frac exp hi hf he
    rw [hal] at this ⊢
    rw [scanNumber]
    simp only [ha, if_false]
    simpa using this
  · rw [List.singleton_append, scanNumber]
    simp only [if_true]
    rw [scanInt_of_grammar _ _ _ _ hi hf he]
    simp

theorem hexVal_of_table : ∀ p ∈ hexDigitTable, hexVal p.1 = some p.2 := by
  decide

theorem hex4_of_IsHex4 (a b c d : Char) (n : Nat) (h : IsHex4 a b c d n) :
    hex4 a b c d = some n := by
  obtain ⟨x, y, z, w, ha, hb, hc, hd, rfl⟩ := h
  have h1 := hexVal_of_table _ ha
  have h2 := hexVal_of_table _ hb
  have h3 := hexVal_of_table _ hc
  have h4 := hexVal_of_table _ hd
  simp only at h1 h2 h3 h4
  simp only [hex4, h1, h2, h3, h4, Option.some.injEq]
  omega

theorem table_of_hexVal (c : Char) (v : Nat) (h : hexVal c = some v) :
    (c, v) ∈ hexDigitTable := by
  have hc : c = Char.ofNat c.toNat := (Char.ofNat_toNat c).symm
  unfold hexVal at h
  split at h
  · rename_i hr
    simp only [Option.some.injEq] at h
    have h48 : ('0' : Char).toNat = 48 := rfl
    have h57 : ('9' : Char).toNat = 57 := rfl
    rw [h48, h57] at hr
    rw [h48] at h
    obtain ⟨k, hk⟩ : ∃ k, c.toNat = k := ⟨_, rfl⟩
    rw [hk] at hr h hc
    subst h
    have : k = 48 ∨ k = 49 ∨ k = 50 ∨ k = 51 ∨ k = 52 ∨ k = 53 ∨ k = 54 ∨ k = 55 ∨ k = 56 ∨
        k = 57 := by omega
    rcases this with rfl | rfl | rfl | rfl | rfl | rfl | rfl | rfl | rfl | rfl <;>
      (rw [hc]; decide)
  · split at h
    · rename_i _ hr
      simp only [Option.some.injEq] at h
      have h97 : ('a' : Char).toNat = 97 := rfl
      have h102 : ('f' : Char).toNat = 102 := rfl
      rw [h97, h102] at hr
      rw [h97] at h
      obtain ⟨k, hk⟩ : ∃ k, c.toNat = k := ⟨_, rfl⟩
      rw [hk] at hr h hc
      subst h
      have : k = 97 ∨ k = 98 ∨ k = 99 ∨ k = 100 ∨ k = 101 ∨ k = 102 := by omega
      rcases this with rfl | rfl | rfl | rfl | rfl | rfl <;> (rw [hc]; decide)
    · split at h
      · rename_i _ _ hr
        simp only [Option.some.injEq] at h
        have h65 : ('A' : Char).toNat = 65 := rfl
        have h70 : ('F' : Char).toNat = 70 := rfl
        rw [h65, h70] at hr
        rw [h65] at h
        obtain ⟨k, hk⟩ : ∃ k, c.toNat = k := ⟨_, rfl⟩
        rw [hk] at hr h hc
        subst h
        have : k = 65 ∨ k = 66 ∨ k = 67 ∨ k = 68 ∨ k = 69 ∨ k = 70 := by omega
        rcases this with rfl | rfl | rfl | rfl | rfl | rfl <;> (rw [hc]; decide)
      · cases h

theorem IsHex4_of_hex4 (a b c d : Char) (n : Nat) (h : hex4 a b c d = some n) :
    IsHex4 a b c d n := by
  unfold hex4 at h
  cases ha : hexVal a with
  | none => simp [ha] at h
  | some x =>
    cases hb : hexVal b with
    | none => simp [ha, hb] at h
    | some y =>
      cases hc : hexVal c with
      | none => simp [ha, hb, hc] at h
      | some z =>
        cases hd : hexVal d with
        | none => simp [ha, hb, hc, hd] at h
        | some w =>
          simp only [ha, hb, hc, hd, Option.some.injEq] at h
          exact ⟨x, y, z, w, table_of_hexVal _ _ ha, table_of_hexVal _ _ hb,
            table_of_hexVal _ _ hc, table_of_hexVal _ _ hd, by omega⟩

theorem simpleEscape_of_table : ∀ p ∈ escapeTable,
    p.1 ≠ 'u' ∧ simpleEscape p.1 = some p.2 := by
  decide

theorem decodeItems_unit_cons (n : Nat) (items : List StrItem)
    (h : ¬ (0xD800 ≤ n ∧ n < 0xDC00 ∧
      ∃ lo rest, items = .unit lo :: rest ∧ 0xDC00 ≤ lo ∧ lo < 0xE000)) :
    decodeItems (.unit n :: items) = unitChar n :: decodeItems items := by
  cases items with
  | nil => rfl
  | cons i rest =>
    cases i with
    | char c => rfl
    | unit lo =>
      rw [decodeItems]
      split
      · rename_i hp
        exact absurd ⟨hp.1, hp.2.1, lo, rest, rfl, hp.2.2.1, hp.2.2.2⟩ h
      · rfl

theorem readItems_head_unit (l : List Char) (lo : Nat) (r : List StrItem) (y : List Char)
    (h : readItems l = .ok (.unit lo :: r, y)) :
    ∃ a b c d rest, l = '\\' :: 'u' :: a :: b :: c :: d :: rest ∧ hex4 a b c d = some lo := by
  cases l with
  | nil => simp [readItems] at h
  | cons c rest =>
    rw [readItems.eq_def] at h
    simp only at h
    by_cases hq : c = '"'
    · simp [hq] at h
    · simp only [hq, if_false] at h
      by_cases hb : c = '\\'
      · simp only [hb, if_true] at h
        cases rest with
        | nil => simp at h
        | cons e rest1 =>
          simp only at h
          by_cases hu : e = 'u'
          · simp only [hu, if_true] at h
            match rest1, h with
            | [], h => simp at h
            | [_], h => simp only at h; split at h <;> cases h
            | [_, _], h => simp only at h; split at h <;> cases h
            | [_, _, _], h => simp only at h; split at h <;> cases h
            | a :: b :: c4 :: d :: rest2, h =>
              simp only at h
              cases hh : hex4 a b c4 d with
              | none => simp [hh] at h
              | some v =>
                simp only [hh] at h
                obtain ⟨items1, _, h2⟩ := consItem_ok _ _ _ _ h
                simp only [List.cons.injEq, StrItem.unit.injEq] at h2
                exact ⟨a, b, c4, d, rest2, by rw [hb, hu], by rw [h2.1]; exact hh⟩
          · simp only [hu, if_false] at h
            cases hs : simpleEscape e with
            | none => simp [hs] at h
            | some ch =>
              simp only [hs] at h
              obtain ⟨items1, _, h2⟩ := consItem_ok _ _ _ _ h
              simp at h2
      · simp only [hb, if_false] at h
        by_cases hc : c.toNat < 32
        · simp [hc] at h
        · simp only [hc, if_false] at h
          obtain ⟨items1, _, h2⟩ := consItem_ok _ _ _ _ h
          simp at h2

theorem prefix_of_unit_head (l ext : List Char) (a b c d : Char) (rest : List Char)
    (lo : Nat) (h : l ++ '"' :: ext = '\\' :: 'u' :: a :: b :: c :: d :: rest)
    (hh : hex4 a b c d = some lo) :
    ∃ rest1, l = '\\' :: 'u' :: a :: b :: c :: d :: rest1 := by
  have hq : ∀ x y z, hex4 '"' x y z = none := by intro x y z; simp [hex4, hexVal]
  have hq2 : ∀ x y z, hex4 x '"' y z = none := by
    intro x y z; simp only [hex4, show hexVal '"' = none from rfl]
    cases hexVal x <;> rfl
  have hq3 : ∀ x y z, hex4 x y '"' z = none := by
    intro x y z; simp only [hex4, show hexVal '"' = none from rfl]
    cases hexVal x <;> cases hexVal y <;> rfl
  have hq4 : ∀ x y z, hex4 x y z '"' = none := by
    intro x y z; simp only [hex4, show hexVal '"' = none from rfl]
    cases hexVal x <;> cases hexVal y <;> cases hexVal z <;> rfl
  match l, h with
  | [], h => simp at h
  | [_], h => simp at h
  | [_, _], h =>
    simp only [List.cons_append, List.nil_append, List.cons.injEq] at h
    obtain ⟨_, _, h3, _⟩ := h
    rw [← h3, hq] at hh; cases hh
  | [_, _, _], h =>
    simp only [List.cons_append, List.nil_append, List.cons.injEq] at h
    obtain ⟨_, _, _, h3, _⟩ := h
    rw [← h3, hq2] at hh; cases hh
  | [_, _, _, _], h =>
    simp only [List.cons_append, List.nil_append, List.cons.injEq] at h
    obtain ⟨_, _, _, _, h3, _⟩ := h
    rw [← h3, hq3] at hh; cases hh
  | [_, _, _, _, _], h =>
    simp only [List.cons_append, List.nil_append, List.cons.injEq] at h
    obtain ⟨_, _, _, _, _, h3, _⟩ := h
    rw [← h3, hq4] at hh; cases hh
  | x1 :: x2 :: x3 :: x4 :: x5 :: x6 :: rest1, h =>
    simp only [List.cons_append, List.cons.injEq] at h
    obtain ⟨h1, h2, h3, h4, h5, h6, _⟩ := h
    exact ⟨rest1, by rw [h1, h2, h3, h4, h5, h6]⟩

/-- The reader reads the inside of a string literal of the grammar, up to the
closing quote, as the characters it denotes. -/
theorem readItems_of_grammar (l u : List Char) (h : StrBody l u) :
    ∀ ext, ∃ items, readItems (l ++ '"' :: ext) = .ok (items, ext) ∧
      decodeItems items = u := by
  induction h with
  | done =>
    intro ext
    refine ⟨[], ?_, rfl⟩
    rw [List.nil_append, readItems.eq_def]
    simp
  | plain c l u h32 hq hb _ ih =>
    intro ext
    obtain ⟨items, h1, h2⟩ := ih ext
    refine ⟨.char c :: items, ?_, ?_⟩
    · rw [List.cons_append, readItems.eq_def]
      have : ¬ c.toNat < 32 := by omega
      simp only [hq, hb, this, if_false, h1]
      rfl
    · rw [decodeItems, h2]
  | escape e c l u he _ ih =>
    intro ext
    obtain ⟨items, h1, h2⟩ := ih ext
    obtain ⟨hu, hs⟩ := simpleEscape_of_table _ he
    simp only at hu hs
    refine ⟨.char c :: items, ?_, ?_⟩
    · rw [List.cons_append, List.cons_append, readItems.eq_def]
      simp only [show ¬ ('\\' = '"') by decide, if_false, if_true, hu, hs, h1]
      rfl
    · rw [decodeItems, h2]
  | unicode a b c d n l u hx hn _ ih =>
    intro ext
    obtain ⟨items, h1, h2⟩ := ih ext
    have hh := hex4_of_IsHex4 _ _ _ _ _ hx
    refine ⟨.unit n :: items, ?_, ?_⟩
    · simp only [List.cons_append]
      rw [readItems.eq_def]
      simp only [show ¬ ('\\' = '"') by decide, if_false, if_true, hh, h1]
      rfl
    · rw [decodeItems_unit_cons n items (by omega), h2]
      have : unitChar n = Char.ofNat n := by
        unfold unitChar
        have : ¬ (0xD800 ≤ n ∧ n < 0xE000) := by omega
        simp only [this, if_false]
      rw [this]
  | pair a b c d a1 b1 c1 d1 hi lo l u hx hx1 h1 h2 h3 h4 _ ih =>
    intro ext
    obtain ⟨items, hr, hd⟩ := ih ext
    have hh := hex4_of_IsHex4 _ _ _ _ _ hx
    have hh1 := hex4_of_IsHex4 _ _ _ _ _ hx1
    refine ⟨.unit hi :: .unit lo :: items, ?_, ?_⟩
    · simp only [List.cons_append]
      rw [readItems.eq_def]
      simp only [show ¬ ('\\' = '"') by decide, if_false, if_true, hh]
      rw [readItems.eq_def]
      simp only [show ¬ ('\\' = '"') by decide, if_false, if_true, hh1, hr]
      rfl
    · have hp : 0xD800 ≤ hi ∧ hi < 0xDC00 ∧ 0xDC00 ≤ lo ∧ lo < 0xE000 := ⟨h1, h2, h3, h4⟩
      have harith : (hi - 0xD800) * 1024 + (lo - 0xDC00) + 0x10000 =
          0x10000 + (hi - 0xD800) * 0x400 + (lo - 0xDC00) := by omega
      rw [decodeItems, if_pos hp, hd, harith]
  | lone a b c d n l u hx h1 h2 hnot _ ih =>
    intro ext
    obtain ⟨items, hr, hd⟩ := ih ext
    have hh := hex4_of_IsHex4 _ _ _ _ _ hx
    refine ⟨.unit n :: items, ?_, ?_⟩
    · simp only [List.cons_append]
      rw [readItems.eq_def]
      simp only [show ¬ ('\\' = '"') by decide, if_false, if_true, hh, hr]
      rfl
    · have hno : ¬ (0xD800 ≤ n ∧ n < 0xDC00 ∧
          ∃ lo rest, items = .unit lo :: rest ∧ 0xDC00 ≤ lo ∧ lo < 0xE000) := by
        rintro ⟨_, hlt, lo, rest, rfl, hlo1, hlo2⟩
        obtain ⟨a1, b1, c1, d1, rest1, hl, hh1⟩ := readItems_head_unit _ _ _ _ hr
        obtain ⟨rest2, hl2⟩ := prefix_of_unit_head _ _ _ _ _ _ _ _ hl hh1
        exact hnot ⟨hlt, a1, b1, c1, d1, lo, rest2, hl2, IsHex4_of_hex4 _ _ _ _ _ hh1,
          hlo1, hlo2⟩
      rw [decodeItems_unit_cons n items hno, hd]
      have : unitChar n = Char.ofNat 0xFFFD := by
        unfold unitChar
        have : 0xD800 ≤ n ∧ n < 0xE000 := ⟨h1, h2⟩
        simp only [this, and_self, if_true]
      rw [this]

/-- The reader reads a string literal of the grammar, after its opening quote,
as the string it denotes. -/
theorem readString_of_grammar (lit value : String) (h : IsStringLit lit value)
    (ext : List Char) :
    ∃ body, lit.data = '"' :: body ∧ readString (body ++ ext) = .ok (value, ext) := by
  obtain ⟨body, hlit, hbody⟩ := h
  obtain ⟨items, h1, h2⟩ := readItems_of_grammar _ _ hbody ext
  refine ⟨body ++ ['"'], hlit, ?_⟩
  rw [List.append_assoc, List.singleton_append, readString, h1]
  simp only [h2]

/-! ## Reading a query response -/

theorem skipWS_cons (c : Char) (cs : List Char) (h : isSpace c = false) :
    skipWS (c :: cs) = c :: cs := by
  simp [skipWS, h]

theorem isDigit_facts (a : Char) (h : a = '-' ∨ isDigit a = true) :
    isSpace a = false ∧ a ≠ '\x7b' ∧ a ≠ '[' ∧ a ≠ '"' ∧ a ≠ 't' ∧ a ≠ 'f' ∧ a ≠ 'n' := by
  rcases h with rfl | h
  · decide
  · refine ⟨?_, ?_, ?_, ?_, ?_, ?_, ?_⟩
    · cases hs : isSpace a with
      | false => rfl
      | true =>
        simp only [isSpace, Bool.or_eq_true, beq_iff_eq] at hs
        rcases hs with ((rfl | rfl) | rfl) | rfl <;> revert h <;> decide
    all_goals (intro ha; subst ha; revert h; decide)

/-- A number literal in front of a delimiter is read as a number. -/
theorem parseValue_number (n depth : Nat) (lit : String) (c : Char) (rest : List Char)
    (hn : 1 ≤ n) (hc : IsDelimiter c) (hlit : IsNumberText lit.data) :
    parseValue n depth (lit.data ++ c :: rest) = .ok (.number lit, c :: rest) := by
  obtain ⟨f, rfl⟩ : ∃ f, n = f + 1 := ⟨n - 1, by omega⟩
  have hscan := scanNumber_of_grammar _ hlit
  cases hd : lit.data with
  | nil => rw [hd] at hscan; simp [scanNumber] at hscan
  | cons a l =>
    have hscan1 := hscan
    rw [hd] at hscan1
    obtain ⟨h1, h2, h3, h4, h5, h6, h7⟩ :=
      isDigit_facts a (scanNumber_head a l _ _ hscan1)
    have happ := scanNumber_append _ _ _ rest c hc hscan1
    simp only [List.cons_append, List.nil_append] at happ
    rw [parseValue, List.cons_append, skipWS_cons _ _ h1]
    simp only [h2, h3, h4, h5, h6, h7, if_false, happ]
    rw [← hd]

/-- A string literal in front of more input is read as the string it
denotes. -/
theorem parseValue_string (n depth : Nat) (lit v : String) (ext : List Char)
    (hn : 1 ≤ n) (hlit : IsStringLit lit v) :
    parseValue n depth (lit.data ++ ext) = .ok (.string v, ext) := by
  obtain ⟨f, rfl⟩ : ∃ f, n = f + 1 := ⟨n - 1, by omega⟩
  obtain ⟨body, hd, hr⟩ := readString_of_grammar lit v hlit ext
  rw [hd, parseValue, List.cons_append, skipWS_cons _ _ (by decide)]
  simp only [hr]
  simp

/-- A scalar in front of a delimiter is read as its JSON value. -/
theorem parseValue_scalar (s : Scalar) (n depth : Nat) (c : Char) (rest : List Char)
    (hn : 1 ≤ n) (hc : IsDelimiter c) (hwf : s.WellFormed) :
    parseValue n depth (s.text.data ++ c :: rest) = .ok (s.toJSON, c :: rest) := by
  cases s with
  | number lit => exact parseValue_number n depth lit c rest hn hc hwf
  | string lit value => exact parseValue_string n depth lit value (c :: rest) hn hwf
  | bool b =>
    obtain ⟨f, rfl⟩ : ∃ f, n = f + 1 := ⟨n - 1, by omega⟩
    cases b with
    | true =>
      show parseValue (f + 1) depth ('t' :: 'r' :: 'u' :: 'e' :: c :: rest) = _
      rw [parseValue, skipWS_cons _ _ (by decide)]
      simp [expectChars, Scalar.toJSON]
    | false =>
      show parseValue (f + 1) depth ('f' :: 'a' :: 'l' :: 's' :: 'e' :: c :: rest) = _
      rw [parseValue, skipWS_cons _ _ (by decide)]
      simp [expectChars, Scalar.toJSON]
  | null =>
    obtain ⟨f, rfl⟩ : ∃ f, n = f + 1 := ⟨n - 1, by omega⟩
    show parseValue (f + 1) depth ('n' :: 'u' :: 'l' :: 'l' :: c :: rest) = _
    rw [parseValue, skipWS_cons _ _ (by decide)]
    simp [expectChars, Scalar.toJSON]

theorem looseEntry_text_data (e : LooseEntry) (rest : List Char) :
    e.text.data ++ rest =
      '\x7b' :: '"' :: 'r' :: 'e' :: 's' :: 'u' :: 'l' :: 't' :: '"' :: ':' ::
        (e.result.text.data ++ ',' :: '"' :: 'u' :: 's' :: 'e' :: 'r' :: 'I' :: 'd' :: '"' ::
          ':' :: (e.userId.text.data ++ '\x7d' :: rest)) := by
  simp [LooseEntry.text, String.data_append, List.append_assoc]

theorem readString_result (ext : List Char) :
    readString ('r' :: 'e' :: 's' :: 'u' :: 'l' :: 't' :: '"' :: ext) = .ok ("result", ext) :=
  readString_append ['r', 'e', 's', 'u', 'l', 't', '"'] "result" [] ext rfl

theorem readString_userId (ext : List Char) :
    readString ('u' :: 's' :: 'e' :: 'r' :: 'I' :: 'd' :: '"' :: ext) = .ok ("userId", ext) :=
  readString_append ['u', 's', 'e', 'r', 'I', 'd', '"'] "userId" [] ext rfl

/-- The text of an entry in front of more input is read as its JSON value. -/
theorem parseValue_entry (e : LooseEntry) (n depth : Nat)
    (rest : List Char) (hn : 4 ≤ n) (hdepth : depth < maxNestingDepth)
    (hwf : e.result.WellFormed ∧ e.userId.WellFormed) :
    parseValue n depth (e.text.data ++ rest) = .ok (e.toJSON, rest) := by
  obtain ⟨f, rfl⟩ : ∃ f, n = f + 4 := ⟨n - 4, by omega⟩
  obtain ⟨hnum, hstr⟩ := hwf
  have hd : ¬ (depth ≥ maxNestingDepth) := by omega
  have hv1 := parseValue_scalar e.result (f + 2) (depth + 1) ','
    ('"' :: 'u' :: 's' :: 'e' :: 'r' :: 'I' :: 'd' :: '"' :: ':' ::
      (e.userId.text.data ++ '\x7d' :: rest)) (by omega) (Or.inl rfl) hnum
  have hv2 := parseValue_scalar e.userId (f + 1) (depth + 1) '\x7d' rest
    (by omega) (Or.inr (Or.inr rfl)) hstr
  rw [looseEntry_text_data, parseValue, skipWS_cons _ _ (by decide)]
  simp only [if_true, hd, if_false]
  rw [skipWS_cons _ _ (by decide)]
  simp only [show ¬ ('"' = '\x7d') by decide, if_false]
  rw [parseMembers, skipWS_cons _ _ (by decide)]
  simp only [if_true, readString_result]
  rw [skipWS_cons _ _ (by decide)]
  simp only [if_true, hv1]
  rw [skipWS_cons _ _ (by decide)]
  simp only [if_true]
  rw [parseMembers, skipWS_cons _ _ (by decide)]
  simp only [if_true, readString_userId]
  rw [skipWS_cons _ _ (by decide)]
  simp only [if_true, hv2]
  rw [skipWS_cons _ _ (by decide)]
  simp only [show ¬ ('\x7d' = ',') by decide, if_false, if_true]
  rfl

/-- The texts of one or more entries followed by the closing bracket are read
as the elements of an array. -/
theorem parseElems_entries (depth : Nat) (hdepth : depth < maxNestingDepth) :
    ∀ (es : List LooseEntry) (e : LooseEntry) (n : Nat) (rest : List Char),
      es.length + 5 ≤ n → (∀ x ∈ e :: es, x.result.WellFormed ∧ x.userId.WellFormed) →
      parseElems n depth ((looseEntriesText (e :: es)).data ++ ']' :: rest) =
        .ok ((e :: es).map LooseEntry.toJSON, rest) := by
  intro es
  induction es with
  | nil =>
    intro e n rest hn hwf
    obtain ⟨f, rfl⟩ : ∃ f, n = f + 1 := ⟨n - 1, by omega⟩
    simp only [List.length_nil] at hn
    have hv := parseValue_entry e f depth (']' :: rest) (by omega) hdepth
      (hwf e (List.mem_cons_self _ _))
    rw [looseEntriesText, parseElems, hv]
    simp only
    rw [skipWS_cons _ _ (by decide)]
    simp only [show ¬ (']' = ',') by decide, if_false, if_true]
    rfl
  | cons e1 es ih =>
    intro e n rest hn hwf
    obtain ⟨f, rfl⟩ : ∃ f, n = f + 1 := ⟨n - 1, by omega⟩
    simp only [List.length_cons] at hn
    have htext : (looseEntriesText (e :: e1 :: es)).data ++ ']' :: rest =
        e.text.data ++ ',' :: ((looseEntriesText (e1 :: es)).data ++ ']' :: rest) := by
      simp [looseEntriesText, String.data_append, List.append_assoc]
    have hv := parseValue_entry e f depth
      (',' :: ((looseEntriesText (e1 :: es)).data ++ ']' :: rest)) (by omega) hdepth
      (hwf e (List.mem_cons_self _ _))
    have hrec := ih e1 f rest (by omega) (fun x hx => hwf x (List.mem_cons_of_mem _ hx))
    rw [htext, parseElems, hv]
    simp only
    rw [skipWS_cons _ _ (by decide)]
    simp only [if_true, hrec]
    rfl

theorem looseEntriesText_head (e : LooseEntry) (es : List LooseEntry)
    (rest : List Char) :
    ∃ tail, (looseEntriesText (e :: es)).data ++ rest = '\x7b' :: tail := by
  cases es with
  | nil => exact ⟨_, by rw [looseEntriesText, looseEntry_text_data]⟩
  | cons e1 es =>
    have h := looseEntry_text_data e (",".data ++ ((looseEntriesText (e1 :: es)).data ++ rest))
    exact ⟨_, by
      rw [looseEntriesText, String.data_append, String.data_append, List.append_assoc,
        List.append_assoc, h]⟩

/-- The JSON value of a response body. -/
theorem parseValue_looseBody (es : List LooseEntry) (n : Nat)
    (hn : es.length + 8 ≤ n) (hwf : ∀ x ∈ es, x.result.WellFormed ∧ x.userId.WellFormed) :
    parseValue n 0 (looseBody es).data =
      .ok (.object [("result", .array (es.map LooseEntry.toJSON))], []) := by
  obtain ⟨f, rfl⟩ : ∃ f, n = f + 3 := ⟨n - 3, by omega⟩
  have hbody : (looseBody es).data =
      '\x7b' :: '"' :: 'r' :: 'e' :: 's' :: 'u' :: 'l' :: 't' :: '"' :: ':' :: '[' ::
        ((looseEntriesText es).data ++ [']', '\x7d']) := by
    simp [looseBody, String.data_append, List.append_assoc]
  have hd0 : ¬ (0 ≥ maxNestingDepth) := by decide
  have hd1 : ¬ (0 + 1 ≥ maxNestingDepth) := by decide
  rw [hbody, parseValue, skipWS_cons _ _ (by decide)]
  simp only [if_true, hd0, if_false]
  rw [skipWS_cons _ _ (by decide)]
  simp only [show ¬ ('"' = '\x7d') by decide, if_false]
  rw [parseMembers, skipWS_cons _ _ (by decide)]
  simp only [if_true, readString_result]
  rw [skipWS_cons _ _ (by decide)]
  simp only [if_true]
  rw [parseValue, skipWS_cons _ _ (by decide)]
  simp only [show ¬ ('[' = '\x7b') by decide, if_false, if_true, hd1]
  cases es with
  | nil =>
    simp only [looseEntriesText, List.nil_append]
    rw [skipWS_cons _ _ (by decide)]
    simp only [if_true]
    rw [skipWS_cons _ _ (by decide)]
    simp only [show ¬ ('\x7d' = ',') by decide, if_false, if_true]
    rfl
  | cons e es =>
    simp only [List.length_cons] at hn
    obtain ⟨tail, htail⟩ := looseEntriesText_head e es [']', '\x7d']
    have hrec := parseElems_entries (0 + 1 + 1) (by decide) es e f ['\x7d'] (by omega) hwf
    rw [htail, skipWS_cons _ _ (by decide)]
    simp only [show ¬ ('\x7b' = ']') by decide, if_false]
    rw [← htail, hrec]
    simp only
    rw [skipWS_cons _ _ (by decide)]
    simp only [show ¬ ('\x7d' = ',') by decide, if_false, if_true]

theorem looseEntriesText_length (es : List LooseEntry) :
    es.length ≤ (looseEntriesText es).data.length := by
  induction es with
  | nil => simp
  | cons e es ih =>
    cases es with
    | nil =>
      have h := looseEntry_text_data e []
      simp only [List.append_nil] at h
      rw [looseEntriesText, h]
      simp
    | cons e1 es =>
      have h := looseEntry_text_data e []
      simp only [List.append_nil] at h
      rw [looseEntriesText, String.data_append, String.data_append, h]
      simp only [List.length_append, List.length_cons] at ih ⊢
      omega

/-- Function `parseJSON` on a response body: the fuel it is run with
suffices. -/
theorem parseJSON_looseBody (es : List LooseEntry)
    (hwf : ∀ x ∈ es, x.result.WellFormed ∧ x.userId.WellFormed) :
    parseJSON (looseBody es) = .ok (.object [("result", .array (es.map LooseEntry.toJSON))]) := by
  have hlen : es.length + 8 ≤ 2 * (looseBody es).length + 2 := by
    have h1 : (looseBody es).length = (looseBody es).data.length := rfl
    have h2 := looseEntriesText_length es
    rw [h1]
    simp only [looseBody, String.data_append, List.length_append, List.length_cons,
      List.length_nil]
    omega
  rw [parseJSON, parseValue_looseBody es _ hlen hwf]
  rfl

/-! ## Decoding a query response -/

theorem saveError_eq (saved : Option DecodeError) (e : DecodeError) :
    saveError saved e = saved.or (some e) := by
  cases saved <;> rfl

theorem decodeFloat_scalar {F : Type} (env : Env F) (saved : Option DecodeError)
    (s : Scalar) :
    decodeFloat env env.zero saved s.toJSON =
      (floatFieldValue env s, saved.or (floatFieldError env s)) := by
  cases s with
  | number lit =>
    simp only [Scalar.toJSON, decodeFloat, floatFieldValue, floatFieldError]
    cases env.parseFloat lit with
    | none => simp [saveError_eq]
    | some x => simp
  | string lit value => simp [Scalar.toJSON, decodeFloat, floatFieldValue, floatFieldError,
      saveError_eq]
  | bool b => simp [Scalar.toJSON, decodeFloat, floatFieldValue, floatFieldError, saveError_eq]
  | null => simp [Scalar.toJSON, decodeFloat, floatFieldValue, floatFieldError]

theorem decodeString_scalar (saved : Option DecodeError) (s : Scalar) :
    decodeString "" saved s.toJSON =
      (stringFieldValue s, saved.or (stringFieldError s)) := by
  cases s with
  | number lit => simp [Scalar.toJSON, decodeString, stringFieldValue, stringFieldError,
      saveError_eq]
  | string lit value => simp [Scalar.toJSON, decodeString, stringFieldValue, stringFieldError]
  | bool b => simp [Scalar.toJSON, decodeString, stringFieldValue, stringFieldError,
      saveError_eq]
  | null => simp [Scalar.toJSON, decodeString, stringFieldValue, stringFieldError]

theorem option_or_assoc (a b c : Option DecodeError) : (a.or b).or c = a.or (b.or c) := by
  cases a <;> simp

theorem decodeResult_entry {F : Type} (env : Env F) (saved : Option DecodeError)
    (e : LooseEntry) :
    decodeResult env (zeroResult env) saved e.toJSON =
      (e.toResult env, saved.or (e.error env)) := by
  have h1 : findResultField "result" = some .result := by decide
  have h2 : findResultField "userId" = some .userId := by decide
  simp only [LooseEntry.toJSON, decodeResult, decodeResultMembers, h1, h2, zeroResult,
    decodeFloat_scalar, decodeString_scalar, LooseEntry.toResult, LooseEntry.error,
    option_or_assoc]

theorem decodeResultElems_entries {F : Type} (env : Env F) (es : List LooseEntry) :
    ∀ saved : Option DecodeError,
      decodeResultElems env (es.map LooseEntry.toJSON) [] saved =
        (es.map (LooseEntry.toResult env), saved.or (firstMismatch env es)) := by
  induction es with
  | nil => intro saved; cases saved <;> rfl
  | cons e es ih =>
    intro saved
    simp only [List.map_cons, decodeResultElems, List.headD_nil, List.tail_nil,
      decodeResult_entry, ih, firstMismatch, option_or_assoc]

/-- Function `json.Unmarshal` on a response body whose entries hold any
scalars: the first type error, in the order of the body, or else the entries. -/
theorem Unmarshal_looseBody {F : Type} (env : Env F) (es : List LooseEntry)
    (hwf : ∀ x ∈ es, x.result.WellFormed ∧ x.userId.WellFormed) :
    Unmarshal env (looseBody es) =
      match firstMismatch env es with
      | some err => .error err
      | none => .ok { Result := es.map (LooseEntry.toResult env) } := by
  have hkey : ∀ v : JSON, decodeKeenResultMembers env [("result", v)]
      { backing := [], len := 0 } none = decodeSlice env { backing := [], len := 0 } none v := by
    intro v
    simp [decodeKeenResultMembers]
  rw [Unmarshal, parseJSON_looseBody es hwf]
  simp only [decodeKeenResult, hkey]
  cases es with
  | nil => rfl
  | cons e es =>
    have h := decodeResultElems_entries env (e :: es) none
    simp only [List.map_cons, Option.none_or] at h
    simp only [decodeSlice, List.map_cons, List.isEmpty_cons, Bool.false_eq_true, if_false, h,
      List.drop_nil, List.append_nil]
    have hl : (e.toJSON :: es.map LooseEntry.toJSON).length =
        (e.toResult env :: es.map (LooseEntry.toResult env)).length := by simp
    rw [hl, List.take_length]
    cases firstMismatch env (e :: es) <;> rfl

theorem resultBody_eq_looseBody {F : Type} (es : List (WireEntry F)) :
    resultBody es = looseBody (es.map WireEntry.toLoose) := by
  have h : entriesText es = looseEntriesText (es.map WireEntry.toLoose) := by
    induction es with
    | nil => rfl
    | cons e es ih =>
      cases es with
      | nil => rfl
      | cons e1 es =>
        simp only [List.map_cons] at ih ⊢
        rw [entriesText, looseEntriesText, ih]
        rfl
  rw [resultBody, looseBody, h]

theorem firstMismatch_wire {F : Type} (env : Env F) (es : List (WireEntry F))
    (hwf : ∀ e ∈ es, e.WellFormed env) :
    firstMismatch env (es.map WireEntry.toLoose) = none ∧
    (es.map WireEntry.toLoose).map (LooseEntry.toResult env) = es.map WireEntry.toResult := by
  induction es with
  | nil => exact ⟨rfl, rfl⟩
  | cons e es ih =>
    obtain ⟨h1, h2⟩ := ih (fun x hx => hwf x (List.mem_cons_of_mem _ hx))
    obtain ⟨_, hfloat, _⟩ := hwf e (List.mem_cons_self _ _)
    constructor
    · simp only [List.map_cons, firstMismatch, h1, LooseEntry.error, WireEntry.toLoose,
        floatFieldError, hfloat, stringFieldError]
      rfl
    · simp only [List.map_cons, h2, LooseEntry.toResult, WireEntry.toLoose, floatFieldValue,
        hfloat, stringFieldValue, WireEntry.toResult]

/-- Function `json.Unmarshal` on a response body of the described form. -/
theorem Unmarshal_resultBody {F : Type} (env : Env F) (es : List (WireEntry F))
    (hwf : ∀ x ∈ es, x.WellFormed env) :
    Unmarshal env (resultBody es) = .ok { Result := es.map WireEntry.toResult } := by
  obtain ⟨h1, h2⟩ := firstMismatch_wire env es hwf
  rw [resultBody_eq_looseBody, Unmarshal_looseBody env _ (by
    intro x hx
    obtain ⟨e, he, rfl⟩ := List.mem_map.1 hx
    obtain ⟨hn, _, hstr⟩ := hwf e he
    exact ⟨hn, hstr⟩), h1, h2]

theorem GetAnalysis_result {F : Type} (env : Env F) (c : Client) (cmd : Command)
    (body : String)
    (h : (doRequest env c "GET" (queryPath cmd) none).result = .ok body) :
    (GetAnalysis env c cmd).result =
      match Unmarshal env body with
      | .error e => .error (.decode e)
      | .ok keenResult => .ok keenResult := by
  unfold GetAnalysis
  simp only [h]
  cases Unmarshal env body <;> rfl

/-- Function `json.Unmarshal` on the nil slice, whatever the environment. -/
theorem Unmarshal_empty {F : Type} (env : Env F) :
    Unmarshal env "" = .error .unexpectedEnd := rfl

/-- When `doRequest` fails, whatever its error, `GetAnalysis` returns the
decode error of the empty input. -/
theorem GetAnalysis_of_request_error {F : Type} (env : Env F) (c : Client) (cmd : Command)
    (err : Error)
    (h : (doRequest env c "GET" (queryPath cmd) none).result = .error err) :
    (GetAnalysis env c cmd).result = .error (.decode .unexpectedEnd) := by
  unfold GetAnalysis
  simp only [h, Unmarshal_empty]

theorem isNumberText_1e400 : IsNumberText "1e400".data :=
  ⟨[], ['1'], [], ['e', '4', '0', '0'], rfl, Or.inl rfl,
    Or.inr ⟨'1', [], rfl, by decide, by decide, by simp⟩, Or.inl rfl,
    Or.inr ⟨'e', [], ['4', '0', '0'], rfl, Or.inl rfl, Or.inl rfl, by simp, by decide⟩⟩

theorem isStringLit_u1 : IsStringLit "\"u1\"" "u1" :=
  ⟨['u', '1'], rfl,
    .plain 'u' _ _ (by decide) (by decide) (by decide)
      (.plain '1' _ _ (by decide) (by decide) (by decide) .done)⟩

/-- C6 (as stated, refuted). The body `{"result":[{"result":1e400,"userId":"u1"}]}`
is of the described form, with a JSON number and a JSON string, and the
transport answers with status 200, yet `GetAnalysis` returns no result and a
decode error: the number is beyond the range of `float64`. -/
theorem getAnalysis_number_out_of_range :
    overflowBody = resultBody
      [({ numLit := "1e400", strLit := "\"u1\"", value := "", user := "u1" } :
        WireEntry String)] ∧
    IsNumberText "1e400".data ∧ IsStringLit "\"u1\"" "u1" ∧
    (GetAnalysis (answering 200 overflowBody) sampleClient sampleCommand).sent.length = 1 ∧
    (GetAnalysis (answering 200 overflowBody) sampleClient sampleCommand).result =
      .error (.decode (.typeMismatch "number 1e400" "float64")) :=
  ⟨by decide, isNumberText_1e400, isStringLit_u1, rfl, rfl⟩

/-- C6 (amended). When the transport answers the query with a 2xx status and a
body of the form `{"result":[{"result":n_1,"userId":u_1},...,{"result":n_k,"userId":u_k}]}`
in which every `n_i` is a JSON number in the range of `float64` and every
`u_i` a JSON string, `GetAnalysis` succeeds and returns exactly `k` entries,
in the same order, the `i`-th holding the `float64` that `n_i` is parsed to
and the string that `u_i` denotes. When the body cannot be decoded it returns
no result and the decode error: for a body of that form whose values are any
scalars this is the first type error in the order of the body, a number out
of range included, and without a type error `null` leaves a field zero. -/
theorem getAnalysis_decodes {F : Type} (env : Env F) (c : Client) (cmd : Command)
    (req : Request) (s : Int) (body : String)
    (hsent : (GetAnalysis env c cmd).sent = [req])
    (hresp : env.roundTrip req = .ok { StatusCode := s, Body := .ok body })
    (hs : 200 ≤ s ∧ s ≤ 299) :
    (∀ entries : List (WireEntry F),
      (∀ e ∈ entries, e.WellFormed env) → body = resultBody entries →
      (GetAnalysis env c cmd).result = .ok { Result := entries.map WireEntry.toResult }) ∧
    (∀ entries : List LooseEntry,
      (∀ e ∈ entries, e.result.WellFormed ∧ e.userId.WellFormed) →
      body = looseBody entries →
      (GetAnalysis env c cmd).result =
        match firstMismatch env entries with
        | some err => .error (.decode err)
        | none => .ok { Result := entries.map (LooseEntry.toResult env) }) ∧
    (∀ e : DecodeError, Unmarshal env body = .error e →
      (GetAnalysis env c cmd).result = .error (.decode e)) := by
  rw [GetAnalysis_sent] at hsent
  have hreq := makeRequest_of_sent env c _ _ _ req hsent
  have hdo := doRequest_of_response env c _ _ _ req s body hreq hresp
  have hok : (doRequest env c "GET" (queryPath cmd) none).result = .ok body := by
    rw [hdo]
    have : 200 ≤ s ∧ s ≤ 399 := ⟨hs.1, by omega⟩
    simp [this]
  have hres := GetAnalysis_result env c cmd body hok
  refine ⟨?_, ?_, ?_⟩
  · intro entries hwf hbody
    rw [hres, hbody, Unmarshal_resultBody env entries hwf]
  · intro entries hwf hbody
    rw [hres, hbody, Unmarshal_looseBody env entries hwf]
    cases firstMismatch env entries <;> rfl
  · intro e he
    rw [hres, he]

theorem sampleEntry_wellFormed (s : Int) (body : String) :
    sampleEntry.WellFormed (answering s body) :=
  ⟨⟨[], ['4', '2'], ['.', '5'], [], rfl, Or.inl rfl,
      Or.inr ⟨'4', ['2'], rfl, by decide, by decide, by decide⟩,
      Or.inr ⟨['5'], rfl, by simp, by decide⟩, Or.inl rfl⟩,
    rfl,
    ⟨['u', '1'], rfl,
      .plain 'u' _ _ (by decide) (by decide) (by decide)
        (.plain '1' _ _ (by decide) (by decide) (by decide) .done)⟩⟩

theorem escapedEntry_wellFormed (s : Int) (body : String) :
    escapedEntry.WellFormed (answering s body) :=
  ⟨⟨['-'], ['1'], [], ['e', '3'], rfl, Or.inr rfl,
      Or.inr ⟨'1', [], rfl, by decide, by decide, by simp⟩, Or.inl rfl,
      Or.inr ⟨'e', [], ['3'], rfl, Or.inl rfl, Or.inl rfl, by simp, by decide⟩⟩,
    rfl,
    ⟨['\\', 'u', '0', '0', '4', '1', '\\', 'u', '0', '0', '4', '2', '\\', 'n',
      '\\', 'u', 'd', '8', '3', 'd', '\\', 'u', 'd', 'e', '0', '0', '\\', 'u', 'd', 'c', '0', '0'], rfl,
      .unicode '0' '0' '4' '1' 0x41 _ _ ⟨0, 0, 4, 1, by decide, by decide, by decide, by decide, rfl⟩
        (Or.inl (by decide))
      (.unicode '0' '0' '4' '2' 0x42 _ _
        ⟨0, 0, 4, 2, by decide, by decide, by decide, by decide, rfl⟩ (Or.inl (by decide))
      (.escape 'n' _ _ _ (by decide)
      (.pair 'd' '8' '3' 'd' 'd' 'e' '0' '0' 0xD83D 0xDE00 _ _
        ⟨13, 8, 3, 13, by decide, by decide, by decide, by decide, rfl⟩
        ⟨13, 14, 0, 0, by decide, by decide, by decide, by decide, rfl⟩
        (by decide) (by decide) (by decide) (by decide)
      (.lone 'd' 'c' '0' '0' 0xDC00 _ _
        ⟨13, 12, 0, 0, by decide, by decide, by decide, by decide, rfl⟩
        (by decide) (by decide) (fun h => absurd h.1 (by decide)) .done))))⟩⟩

theorem mismatchedEntries_wellFormed :
    ∀ e ∈ mismatchedEntries, e.result.WellFormed ∧ e.userId.WellFormed := by
  intro e he
  simp only [mismatchedEntries, List.mem_cons, List.mem_singleton, List.not_mem_nil,
    or_false] at he
  rcases he with rfl | rfl
  · exact ⟨⟨['x'], rfl, .plain 'x' _ _ (by decide) (by decide) (by decide) .done⟩,
      ⟨[], ['5'], [], [], rfl, Or.inl rfl,
        Or.inr ⟨'5', [], rfl, by decide, by decide, by simp⟩, Or.inl rfl, Or.inl rfl⟩⟩
  · exact ⟨trivial, trivial⟩

theorem getAnalysis_decodes_witness :
    (200 ≤ (200 : Int) ∧ (200 : Int) ≤ 299) ∧
    sampleBody = resultBody [sampleEntry] ∧
    (GetAnalysis (answering 200 sampleBody) sampleClient sampleCommand).result =
      .ok { Result := [{ Result := "42.5", UserID := "u1" }] } ∧
    twoEntryBody = resultBody [sampleEntry, escapedEntry] ∧
    (∀ e ∈ [sampleEntry, escapedEntry], e.WellFormed (answering 200 twoEntryBody)) ∧
    (GetAnalysis (answering 200 twoEntryBody) sampleClient sampleCommand).result =
      .ok { Result :=
        [{ Result := "42.5", UserID := "u1" },
         { Result := "-1e3",
           UserID := String.mk ['A', 'B', '\n', Char.ofNat 0x1F600, Char.ofNat 0xFFFD] }] } ∧
    mismatchedBody = looseBody mismatchedEntries ∧
    (GetAnalysis (answering 200 mismatchedBody) sampleClient sampleCommand).result =
      .error (.decode (.typeMismatch "string" "float64")) ∧
    Unmarshal (answering 200 "\x7b\"result\":[") "\x7b\"result\":[" = .error .unexpectedEnd ∧
    (GetAnalysis (answering 200 "\x7b\"result\":[") sampleClient sampleCommand).result =
      .error (.decode .unexpectedEnd) :=
  have hwf : ∀ e ∈ [sampleEntry, escapedEntry], e.WellFormed (answering 200 twoEntryBody) := by
    intro e he
    simp only [List.mem_cons, List.mem_singleton, List.not_mem_nil, or_false] at he
    rcases he with rfl | rfl
    · exact sampleEntry_wellFormed _ _
    · exact escapedEntry_wellFormed _ _
  ⟨by decide, by decide,
    (getAnalysis_decodes (answering 200 sampleBody) sampleClient sampleCommand _ 200
      sampleBody rfl rfl (by decide)).1 [sampleEntry]
      (fun e he => by
        rw [List.mem_singleton.1 he]
        exact sampleEntry_wellFormed _ _)
      (by decide),
    by decide, hwf,
    (getAnalysis_decodes (answering 200 twoEntryBody) sampleClient sampleCommand _ 200
      twoEntryBody rfl rfl (by decide)).1 [sampleEntry, escapedEntry] hwf (by decide),
    by decide,
    (getAnalysis_decodes (answering 200 mismatchedBody) sampleClient sampleCommand _ 200
      mismatchedBody rfl rfl (by decide)).2.1 mismatchedEntries mismatchedEntries_wellFormed
      (by decide),
    rfl,
    (getAnalysis_decodes (answering 200 "\x7b\"result\":[") sampleClient sampleCommand _ 200
      "\x7b\"result\":[" rfl rfl (by decide)).2.2 .unexpectedEnd rfl⟩

/-! ## Timestamps -/

theorem parseLayout_timestamp :
    parseLayout "2006-01-02T15:04:05.000Z".data =
      some [.stdLongYear, .literal '-', .stdZeroMonth, .literal '-', .stdZeroDay,
        .literal 'T', .stdHour, .literal ':', .stdZeroMinute, .literal ':', .stdZeroSecond,
        .stdFracSecond0 3, .literal 'Z'] := by
  decide

theorem digitsAux_eq : ∀ (n fuel : Nat) (acc : List Char), n < fuel →
    digitsAux fuel n acc =
      (if n < 10 then [digitChar n] else digits (n / 10) ++ [digitChar (n % 10)]) ++ acc := by
  intro n
  induction n using Nat.strong_induction_on with
  | _ n ih =>
    intro fuel acc hfuel
    obtain ⟨f, rfl⟩ : ∃ f, fuel = f + 1 := ⟨fuel - 1, by omega⟩
    rw [digitsAux]
    by_cases hn : n < 10
    · simp [hn]
    · simp only [hn, if_false]
      have hlt : n / 10 < n := by omega
      rw [ih (n / 10) hlt f _ (by omega)]
      have h2 : digits (n / 10) =
          (if n / 10 < 10 then [digitChar (n / 10)]
            else digits (n / 10 / 10) ++ [digitChar (n / 10 % 10)]) := by
        have := ih (n / 10) hlt (n / 10 + 1) [] (by omega)
        simpa [digits] using this
      rw [← h2]
      simp

/-- The decimal digits of a number: one digit below ten, otherwise the digits
of the tens followed by the last digit. -/
theorem digits_eq (n : Nat) :
    digits n = if n < 10 then [digitChar n] else digits (n / 10) ++ [digitChar (n % 10)] := by
  have := digitsAux_eq n (n + 1) [] (by omega)
  simpa [digits] using this

theorem fixedDigits_zero (w : Nat) : fixedDigits w 0 = List.replicate w '0' := by
  induction w with
  | zero => rfl
  | succ w ih =>
    rw [fixedDigits, Nat.zero_div, ih, List.replicate_succ']
    rfl

theorem fixedDigits_length (w n : Nat) : (fixedDigits w n).length = w := by
  induction w generalizing n with
  | zero => rfl
  | succ w ih => simp [fixedDigits, ih]

/-- Padding the digits of a number below `10^w` to `w` places gives its `w`
low digits. -/
theorem pad_digits : ∀ (w n : Nat), 1 ≤ w → n < 10 ^ w →
    List.replicate (w - (digits n).length) '0' ++ digits n = fixedDigits w n ∧
      (digits n).length ≤ w := by
  intro w
  induction w with
  | zero => intro n h; omega
  | succ w ih =>
    intro n _ hn
    rw [digits_eq]
    by_cases h10 : n < 10
    · simp only [h10, if_true, List.length_singleton]
      constructor
      · rw [fixedDigits, Nat.div_eq_of_lt h10, fixedDigits_zero]
        simp [digitChar, Nat.mod_eq_of_lt h10]
      · omega
    · simp only [h10, if_false, List.length_append, List.length_singleton]
      have hw : 1 ≤ w := by
        rcases Nat.eq_zero_or_pos w with h0 | h0
        · subst h0
          simp at hn
          omega
        · exact h0
      have hdiv : n / 10 < 10 ^ w := by
        rw [Nat.pow_succ] at hn
        omega
      obtain ⟨h1, h2⟩ := ih (n / 10) hw hdiv
      constructor
      · rw [fixedDigits, ← h1, ← List.append_assoc]
        have : w + 1 - ((digits (n / 10)).length + 1) = w - (digits (n / 10)).length := by
          omega
        rw [this]
      · omega

/-- Function `appendInt` on a natural number below `10^width`. -/
theorem appendInt_nat (n width : Nat) (hw : 1 ≤ width) (hn : n < 10 ^ width) :
    appendInt (n : Int) width = fixedDigits width n := by
  unfold appendInt
  have hneg : ¬ ((n : Int) < 0) := by omega
  simp only [hneg, if_false, Int.natAbs_ofNat, List.nil_append]
  exact (pad_digits width n hw hn).1

theorem fixedDigits_take (a : Nat) : ∀ (b n : Nat),
    (fixedDigits (a + b) n).take a = fixedDigits a (n / 10 ^ b) := by
  intro b
  induction b with
  | zero =>
    intro n
    have := fixedDigits_length a n
    simp only [Nat.add_zero, Nat.pow_zero, Nat.div_one]
    exact List.take_of_length_le (by omega)
  | succ b ih =>
    intro n
    rw [← Nat.add_assoc, fixedDigits, List.take_append_of_le_length
      (by rw [fixedDigits_length]; omega), ih, Nat.pow_succ, Nat.div_div_eq_div_mul,
      Nat.mul_comm]

/-- Function `formatNano` for three digits: the milliseconds, rounded down. -/
theorem formatNano_three (nsec : Nat) (h : nsec < 1000000000) :
    formatNano nsec 3 = '.' :: fixedDigits 3 (nsec / 1000000) := by
  unfold formatNano
  rw [appendInt_nat nsec 9 (by omega) (by omega)]
  have := fixedDigits_take 3 6 nsec
  simp only [Nat.reduceAdd, Nat.reducePow] at this
  rw [this]

theorem isLeap_eq_gregorianLeap (year : Int) : isLeap year = gregorianLeap year := by
  unfold isLeap gregorianLeap
  rw [Bool.eq_iff_iff]
  simp only [Bool.and_eq_true, Bool.or_eq_true, beq_iff_eq, bne_iff_ne, ne_eq,
    decide_eq_true_eq]
  omega

/-- Arithmetic of the year cycles: `n400`, `c`, `f` and `g` are the quotients
`absDate` computes, `y` the number of whole years and `r` the remaining days. -/
theorem year_cycles (d n400 c f g y r : Int)
    (h400 : n400 = d / 146097)
    (hc : c = (d - 146097 * n400) / 36524)
    (hf : f = (d - 146097 * n400 - 36524 * (c - c / 4)) / 1461)
    (hg : g = (d - 146097 * n400 - 36524 * (c - c / 4) - 1461 * f) / 365)
    (hy : y = 400 * n400 + 100 * (c - c / 4) + 4 * f + (g - g / 4))
    (hr : r = d - 146097 * n400 - 36524 * (c - c / 4) - 1461 * f - 365 * (g - g / 4)) :
    0 ≤ r ∧ d = 365 * y + y / 4 - y / 100 + y / 400 + r ∧
    (r ≤ 364 ∨ (r = 365 ∧ 4 ∣ (y + 1) ∧ (¬ 100 ∣ (y + 1) ∨ 400 ∣ (y + 1)))) ∧
    (-366 ≤ d → d < 3652059 → 0 ≤ y + 1 ∧ y + 1 ≤ 9999) := by
  have hc' : c = 0 ∨ c = 1 ∨ c = 2 ∨ c = 3 ∨ c = 4 := by omega
  have hg' : g = 0 ∨ g = 1 ∨ g = 2 ∨ g = 3 ∨ g = 4 := by
    rcases hc' with h | h | h | h | h <;> subst h <;> omega
  rcases hc' with h | h | h | h | h <;> rcases hg' with h' | h' | h' | h' | h' <;>
    subst h <;> subst h' <;> simp only [Int.reduceDiv, Int.reduceSub, Int.reduceMul] at * <;>
    omega

theorem yearAndDay_eq (d n400 c f g y r : Int)
    (h400 : n400 = d / 146097)
    (hc : c = (d - 146097 * n400) / 36524)
    (hf : f = (d - 146097 * n400 - 36524 * (c - c / 4)) / 1461)
    (hg : g = (d - 146097 * n400 - 36524 * (c - c / 4) - 1461 * f) / 365)
    (hy : y = 400 * n400 + 100 * (c - c / 4) + 4 * f + (g - g / 4))
    (hr : r = d - 146097 * n400 - 36524 * (c - c / 4) - 1461 * f - 365 * (g - g / 4)) :
    yearAndDay d = (y + 1, r.toNat) := by
  unfold yearAndDay
  simp only
  rw [← h400, ← hc, ← hf, ← hg, ← hy, ← hr]

/-- The year part of `absDate` is right: the day is the given day of the
year it returns, and that year has such a day. -/
theorem yearAndDay_spec (d : Int) :
    d = daysBeforeYear (yearAndDay d).1 + ((yearAndDay d).2 : Int) ∧
    (yearAndDay d).2 < (if gregorianLeap (yearAndDay d).1 then 366 else 365) ∧
    (-366 ≤ d → d < 3652059 → 0 ≤ (yearAndDay d).1 ∧ (yearAndDay d).1 ≤ 9999) := by
  obtain ⟨n400, h400⟩ : ∃ n400 : Int, n400 = d / 146097 := ⟨_, rfl⟩
  obtain ⟨c, hc⟩ : ∃ c : Int, c = (d - 146097 * n400) / 36524 := ⟨_, rfl⟩
  obtain ⟨f, hf⟩ : ∃ f : Int, f = (d - 146097 * n400 - 36524 * (c - c / 4)) / 1461 :=
    ⟨_, rfl⟩
  obtain ⟨g, hg⟩ : ∃ g : Int,
      g = (d - 146097 * n400 - 36524 * (c - c / 4) - 1461 * f) / 365 := ⟨_, rfl⟩
  obtain ⟨y, hy⟩ : ∃ y : Int,
      y = 400 * n400 + 100 * (c - c / 4) + 4 * f + (g - g / 4) := ⟨_, rfl⟩
  obtain ⟨r, hr⟩ : ∃ r : Int,
      r = d - 146097 * n400 - 36524 * (c - c / 4) - 1461 * f - 365 * (g - g / 4) :=
    ⟨_, rfl⟩
  obtain ⟨h1, h2, h3, h4⟩ := year_cycles d n400 c f g y r h400 hc hf hg hy hr
  rw [yearAndDay_eq d n400 c f g y r h400 hc hf hg hy hr]
  clear h400 hc hf hg hy hr
  simp only [daysBeforeYear, gregorianLeap]
  rw [Int.toNat_of_nonneg h1]
  refine ⟨?_, ?_, ?_⟩
  · omega
  · have hr0 : r.toNat = r := Int.toNat_of_nonneg h1
    split
    · omega
    · rename_i hleap
      simp only [decide_eq_true_eq] at hleap
      rcases h3 with h3 | ⟨_, h5, h6⟩
      · omega
      · exact absurd ⟨h5, h6⟩ hleap
  · intro hlo hhi
    exact h4 hlo hhi

set_option maxRecDepth 100000 in
theorem monthAndDay_common : ∀ yd, yd < 365 →
    1 ≤ (monthAndDay false yd).1 ∧ (monthAndDay false yd).1 ≤ 12 ∧
    1 ≤ (monthAndDay false yd).2 ∧
    (monthAndDay false yd).2 ≤ daysInMonth false (monthAndDay false yd).1 ∧
    daysBeforeMonth false (monthAndDay false yd).1 + ((monthAndDay false yd).2 - 1) = yd := by
  decide

set_option maxRecDepth 100000 in
theorem monthAndDay_leap : ∀ yd, yd < 366 →
    1 ≤ (monthAndDay true yd).1 ∧ (monthAndDay true yd).1 ≤ 12 ∧
    1 ≤ (monthAndDay true yd).2 ∧
    (monthAndDay true yd).2 ≤ daysInMonth true (monthAndDay true yd).1 ∧
    daysBeforeMonth true (monthAndDay true yd).1 + ((monthAndDay true yd).2 - 1) = yd := by
  decide

/-- The month part of `absDate` is right: the day of the year is the given
day of the month it returns. -/
theorem monthAndDay_spec (leap : Bool) (yd : Nat) (h : yd < (if leap then 366 else 365)) :
    1 ≤ (monthAndDay leap yd).1 ∧ (monthAndDay leap yd).1 ≤ 12 ∧
    1 ≤ (monthAndDay leap yd).2 ∧
    (monthAndDay leap yd).2 ≤ daysInMonth leap (monthAndDay leap yd).1 ∧
    daysBeforeMonth leap (monthAndDay leap yd).1 + ((monthAndDay leap yd).2 - 1) = yd := by
  cases leap with
  | false => exact monthAndDay_common yd (by simpa using h)
  | true => exact monthAndDay_leap yd (by simpa using h)

/-- What `Timestamp` writes, field by field. -/
theorem Timestamp_eq (t : Time) :
    Timestamp t = String.mk (
      appendInt (yearAndDay t.UTC.days).1 4 ++ '-' ::
      appendInt (monthAndDay (isLeap (yearAndDay t.UTC.days).1) (yearAndDay t.UTC.days).2).1 2
        ++ '-' ::
      appendInt (monthAndDay (isLeap (yearAndDay t.UTC.days).1) (yearAndDay t.UTC.days).2).2 2
        ++ 'T' ::
      appendInt (t.UTC.secondOfDay / 3600 : Nat) 2 ++ ':' ::
      appendInt (t.UTC.secondOfDay % 3600 / 60 : Nat) 2 ++ ':' ::
      appendInt (t.UTC.secondOfDay % 60 : Nat) 2 ++
      formatNano t.nsec 3 ++ ['Z']) := by
  unfold Timestamp Time.Format
  rw [parseLayout_timestamp]
  simp [formatChunk, Time.UTC]

theorem daysBeforeYear_1970 : daysBeforeYear 1970 = 719162 := by
  decide

/-- C3 (amended). For every point in time `t` whose UTC year is between 0
and 9999, `Timestamp t` is the text `YYYY-MM-DDTHH:MM:SS.mmmZ` of the UTC
calendar date and time of `t`, with the milliseconds rounded down, whatever
zone offset `t` is displayed in. -/
theorem Timestamp_spec (t : Time) (hlo : -62167219200 ≤ t.sec)
    (hhi : t.sec < 253402300800) :
    ∃ year month day hour minute second milli : Nat,
      year ≤ 9999 ∧ 1 ≤ month ∧ month ≤ 12 ∧
      1 ≤ day ∧ day ≤ daysInMonth (gregorianLeap year) month ∧
      hour < 24 ∧ minute < 60 ∧ second < 60 ∧ milli < 1000 ∧
      t.sec = civilToUnix year month day hour minute second ∧
      milli = t.nsec / 1000000 ∧
      Timestamp t = renderTimestamp year month day hour minute second milli ∧
      ∀ offset : Int, Timestamp { t with offset := offset } = Timestamp t := by
  have hd : t.UTC.days = t.sec / 86400 + 719162 := by
    simp [Time.days, Time.UTC, unixEpochDay]
  have hs : (t.UTC.secondOfDay : Int) = t.sec % 86400 := by
    simp only [Time.secondOfDay, Time.UTC, Int.add_zero]
    exact Int.toNat_of_nonneg (Int.emod_nonneg _ (by decide))
  obtain ⟨hy1, hy2, hy3⟩ := yearAndDay_spec t.UTC.days
  obtain ⟨hy0, hy9⟩ := hy3 (by omega) (by omega)
  have hleap := isLeap_eq_gregorianLeap (yearAndDay t.UTC.days).1
  obtain ⟨hm1, hm2, hm3, hm4, hm5⟩ :=
    monthAndDay_spec (gregorianLeap (yearAndDay t.UTC.days).1) (yearAndDay t.UTC.days).2 hy2
  have hyear : (((yearAndDay t.UTC.days).1.toNat : Nat) : Int) = (yearAndDay t.UTC.days).1 :=
    Int.toNat_of_nonneg hy0
  have hnsec := t.nsec_lt
  have hsod : t.UTC.secondOfDay < 86400 := by
    have := Int.emod_lt_of_pos t.sec (show (0 : Int) < 86400 by decide)
    omega
  refine ⟨(yearAndDay t.UTC.days).1.toNat,
    (monthAndDay (gregorianLeap (yearAndDay t.UTC.days).1) (yearAndDay t.UTC.days).2).1,
    (monthAndDay (gregorianLeap (yearAndDay t.UTC.days).1) (yearAndDay t.UTC.days).2).2,
    t.UTC.secondOfDay / 3600, t.UTC.secondOfDay % 3600 / 60, t.UTC.secondOfDay % 60,
    t.nsec / 1000000, ?_, hm1, hm2, hm3, ?_, ?_, ?_, ?_, ?_, ?_, rfl, ?_, ?_⟩
  · omega
  · rw [hyear]
    exact hm4
  · omega
  · omega
  · omega
  · omega
  · unfold civilToUnix
    rw [hyear, daysBeforeYear_1970]
    have h1 : (t.sec / 86400 + 719162 : Int) =
        daysBeforeYear (yearAndDay t.UTC.days).1 + ((yearAndDay t.UTC.days).2 : Int) := by
      rw [← hd]
      exact hy1
    have h2 : ((yearAndDay t.UTC.days).2 : Int) =
        (daysBeforeMonth (gregorianLeap (yearAndDay t.UTC.days).1)
          (monthAndDay (gregorianLeap (yearAndDay t.UTC.days).1)
            (yearAndDay t.UTC.days).2).1 : Nat) +
        (((monthAndDay (gregorianLeap (yearAndDay t.UTC.days).1)
            (yearAndDay t.UTC.days).2).2 - 1 : Nat) : Int) := by
      rw [← Int.ofNat_add]
      exact congrArg Int.ofNat hm5.symm
    rw [h2] at h1
    push_cast
    omega
  · have hY := appendInt_nat (yearAndDay t.UTC.days).1.toNat 4 (by omega) (by omega)
    rw [hyear] at hY
    have hD : (monthAndDay (gregorianLeap (yearAndDay t.UTC.days).1)
        (yearAndDay t.UTC.days).2).2 < 10 ^ 2 := by
      have : daysInMonth (gregorianLeap (yearAndDay t.UTC.days).1)
          (monthAndDay (gregorianLeap (yearAndDay t.UTC.days).1)
            (yearAndDay t.UTC.days).2).1 ≤ 31 := by
        unfold daysInMonth
        split
        · split <;> omega
        · split <;> omega
      omega
    rw [Timestamp_eq, hleap, renderTimestamp, hY,
      appendInt_nat _ 2 (by omega) (by omega), appendInt_nat _ 2 (by omega) hD,
      appendInt_nat _ 2 (by omega) (by omega), appendInt_nat _ 2 (by omega) (by omega),
      appendInt_nat _ 2 (by omega) (by omega), formatNano_three _ hnsec]
  · intro offset
    rfl

theorem Timestamp_spec_witness :
    (-62167219200 ≤ sampleTime.sec ∧ sampleTime.sec < 253402300800) ∧
    sampleTime.offset = -18000 ∧
    sampleTime.sec + sampleTime.offset = civilToUnix 2021 3 4 10 0 0 ∧
    Timestamp sampleTime = "2021-03-04T15:00:00.000Z" ∧
    ∃ year month day hour minute second milli : Nat,
      year ≤ 9999 ∧ 1 ≤ month ∧ month ≤ 12 ∧
      1 ≤ day ∧ day ≤ daysInMonth (gregorianLeap year) month ∧
      hour < 24 ∧ minute < 60 ∧ second < 60 ∧ milli < 1000 ∧
      sampleTime.sec = civilToUnix year month day hour minute second ∧
      milli = sampleTime.nsec / 1000000 ∧
      Timestamp sampleTime = renderTimestamp year month day hour minute second milli ∧
      ∀ offset : Int, Timestamp { sampleTime with offset := offset } = Timestamp sampleTime :=
  ⟨⟨by decide, by decide⟩, rfl, by decide, by decide,
    Timestamp_spec sampleTime (by decide) (by decide)⟩

theorem renderTimestamp_length (year month day hour minute second milli : Nat) :
    (renderTimestamp year month day hour minute second milli).length = 24 := by
  simp [renderTimestamp, String.length, fixedDigits_length]

/-- C3 (as stated, refuted). The first instant of the year 10000 is formatted
with a five-digit year: the text has 25 characters and is not of the form
`YYYY-MM-DDTHH:MM:SS.mmmZ`. -/
theorem timestamp_year_10000 :
    year10000.sec = 253402300800 ∧
    Timestamp year10000 = "10000-01-01T00:00:00.000Z" ∧
    ∀ year month day hour minute second milli : Nat,
      Timestamp year10000 ≠ renderTimestamp year month day hour minute second milli := by
  have h : Timestamp year10000 = "10000-01-01T00:00:00.000Z" := by decide
  refine ⟨by decide, h, ?_⟩
  intro year month day hour minute second milli heq
  have hlen := renderTimestamp_length year month day hour minute second milli
  rw [← heq, h] at hlen
  revert hlen
  decide

end Keen
